import Mathlib

/-!
# Verification development for the galaxy planning subsystem

Shallow embedding of the orchestrator (`pkg/galaxy/galaxy.go`), the
configuration data model (`DotGalaxy` and friends), and — modelled from the
specification where the Go source is not available — the `Context` /
`FileInspector` layer and the `Plan` / `ContextForEnvironment` transformation.

Go maps are embedded as association lists (`List (String × α)`); Go's
`m[k] = v` becomes `aset`, reads become `alookup` (with the zero value as
default, matching Go map semantics). Fallible Go functions returning
`error` become `Except GError` or a `× Option GError` result paired with
the mutated state. The filesystem is an explicit value listing directories
and their file entries. `logrus` logging is pure noise and is dropped, with
one exception: `logger.Fatalf` (hit on an `InspectDir` failure inside
`Loop`) logs and then terminates the process, so the `return err` after it
is dead code. The `RunResult` embedding (`loopRun` and friends) models that
process exit explicitly; the simplified `loopEnvs` form collapses both
abort mechanisms into an error return and is used only where the stated
property does not turn on the distinction (the bridging lemmas
`buildCtxGo_eq_run` and `loopEnvs_of_loopRun_ret` relate the two).
-/

namespace Galaxy2

/-- Error values produced by the embedded code. Go uses untyped
`fmt.Errorf`/`errors.New` strings; each construction site is mapped to one
constructor so that the error *kind* of the spec is recoverable. -/
inductive GError where
  /-- `Inspect`: "base directory not found at: %s"; also the spec's
  `NotFoundError` for a missing namespace directory in `InspectDir`. -/
  | notFound (path : String)
  /-- `GetNamespaceDir`: "namespace informed does not exist: " + name. -/
  | namespaceNotExist (name : String)
  /-- `GetNamespaceDir`: "baseDir is not a directory: " + dir. -/
  | baseDirNotDir (path : String)
  /-- `GetEnvironment`: "Environment is not found: " + name. -/
  | envNotFound (name : String)
  /-- `probeSingleEnv`: "a single environment must be informed". -/
  | configuration
  /-- `probeSingleEnv`: "environment '%s' is not found on planned data". -/
  | notPlannedData (env : String)
  /-- `probeSingleEnv`: "environment '%s' is not found on original namespace names map". -/
  | notPlannedNs (env : String)
  /-- Spec §7 `ConflictError`: two source namespaces transform to the same
  target namespace `target`; `prev` was already recorded, `cur` collided. -/
  | conflict (target prev cur : String)
  deriving DecidableEq, Repr

/-- Errors the spec classifies as `NotPlannedError` (both probe failures). -/
def GError.isNotPlanned : GError → Bool
  | .notPlannedData _ => true
  | .notPlannedNs _ => true
  | _ => false

/-! ## Association lists standing in for Go maps -/

/-- First value stored under key `k`, if any (Go `v, found := m[k]`). -/
def alookup {α : Type} (m : List (String × α)) (k : String) : Option α :=
  (m.find? (fun p => p.fst == k)).map (fun p => p.snd)

/-- Read with Go zero-value default (`m[k]` on a missing key). -/
def alookupD {α : Type} (m : List (String × α)) (k : String) (dflt : α) : α :=
  (alookup m k).getD dflt

/-- Go `_, found := m[k]`. -/
def amem {α : Type} (m : List (String × α)) (k : String) : Bool :=
  (alookup m k).isSome

/-- Go map assignment `m[k] = v`: replace the binding of `k`, or add it. -/
def aset {α : Type} (k : String) (v : α) : List (String × α) → List (String × α)
  | [] => [(k, v)]
  | p :: rest => if p.fst == k then (k, v) :: rest else p :: aset k v rest

/-! ## Filesystem model -/

/-- Modelled from the spec: the directory layout `baseDir/<ns>/*.<ext>` (§6).
`dirs` lists the paths that exist as directories, `files` the listing (in
traversal order) of each directory. -/
structure FileSystem where
  dirs : List String
  files : List (String × List String)
  deriving DecidableEq, Repr

/-- Modelled from the spec: the `isDir` helper used by `Inspect` and
`GetNamespaceDir` (not under `src/`) — whether `p` exists as a directory. -/
def isDir (fs : FileSystem) (p : String) : Bool :=
  fs.dirs.contains p

/-- Immediate contents of directory `p`, in listing order. -/
def listDir (fs : FileSystem) (p : String) : List String :=
  alookupD fs.files p []

/-- Go `path.Join` for the base-dir/namespace paths used here. -/
def pathJoin (a b : String) : String :=
  a ++ "/" ++ b

/-- Modelled from the spec: the `stringSliceContains` helper (not under
`src/`) — membership of `s` in `slice`. -/
def stringSliceContains (slice : List String) (s : String) : Bool :=
  slice.contains s

/-! ## Configuration data model (`DotGalaxy`, from the source) -/

/-- `Transform` configuration on how to transform a release for an
environment. The Go field `ReleasePrefix` is embedded as `releasePfx`. -/
structure Transform where
  namespaceSuffix : String
  releasePfx : String
  deriving DecidableEq, Repr

/-- `Environment` representation, related to environment scope and
transformation. -/
structure Environment where
  name : String
  skipOnNamespaces : List String
  fileSuffixes : List String
  transform : Transform
  deriving DecidableEq, Repr

/-- `Namespaces`: where to find namespace directories and releases. -/
structure Namespaces where
  baseDir : String
  extensions : List String
  names : List String
  deriving DecidableEq, Repr

/-- `Spec`: configuration core, linking other types together. -/
structure Spec where
  environments : List Environment
  namespaces : Namespaces
  deriving DecidableEq, Repr

/-- `DotGalaxy` represents the `.galaxy.yaml` configuration file. -/
structure DotGalaxy where
  spec : Spec
  deriving DecidableEq, Repr

/-- `ListNamespaces` exposes the list with namespace names. -/
def DotGalaxy.ListNamespaces (d : DotGalaxy) : List String :=
  d.spec.namespaces.names

/-- `ListEnvironments` names based in known configuration. -/
def DotGalaxy.ListEnvironments (d : DotGalaxy) : List String :=
  d.spec.environments.map (fun e => e.name)

/-- `GetNamespaceDir` returns the path to the namespace directory, or error. -/
def DotGalaxy.GetNamespaceDir (d : DotGalaxy) (fs : FileSystem) (name : String) :
    Except GError String :=
  if !(stringSliceContains d.spec.namespaces.names name) then
    .error (.namespaceNotExist name)
  else if !(isDir fs d.spec.namespaces.baseDir) then
    .error (.baseDirNotDir d.spec.namespaces.baseDir)
  else
    .ok (pathJoin d.spec.namespaces.baseDir name)

/-- The `for … range` loop of `GetEnvironment`: first environment whose
`Name` equals the requested name. -/
def getEnvGo (name : String) : List Environment → Except GError Environment
  | [] => .error (.envNotFound name)
  | env :: rest => if name == env.name then .ok env else getEnvGo name rest

/-- `GetEnvironment` returns the environment instance based on its name. -/
def DotGalaxy.GetEnvironment (d : DotGalaxy) (name : String) :
    Except GError Environment :=
  getEnvGo name d.spec.environments

/-! ## Context and FileInspector (modelled from the spec, §3/§4.1) -/

/-- Modelled from the spec: a file record of the `Context` (§3) — "carries at
minimum its namespace, its relative path, and its logical release identity
(derived from filename, suffix-stripped)". -/
structure FileRecord where
  nsName : String
  path : String
  release : String
  deriving DecidableEq, Repr

/-- Modelled from the spec: `Context` (§3) — "mapping from namespace name to
a list of discovered file records", in insertion order. The Go
implementation is not under `src/`. -/
structure Context where
  entries : List (String × List FileRecord)
  deriving DecidableEq, Repr

/-- `NewContext` creates an empty context. -/
def NewContext : Context :=
  ⟨[]⟩

/-- Whether the context holds an entry (possibly empty) for namespace `ns`. -/
def Context.hasNs (ctx : Context) (ns : String) : Bool :=
  amem ctx.entries ns

/-- Extension filter of the FileInspector: file name ends with one of the
accepted extensions. -/
def matchesExt (exts : List String) (f : String) : Bool :=
  exts.any (fun e => f.endsWith e)

/-- Release identity derived from a file name: the matched extension is
stripped (spec §3, "derived from filename, suffix-stripped"). -/
def releaseOf (exts : List String) (f : String) : String :=
  match exts.find? (fun e => f.endsWith e) with
  | some e => f.dropRight e.length
  | none => f

/-- File records the FileInspector discovers for namespace `ns` in
directory `baseDir`: the listing filtered by extension, in traversal
order. -/
def discoveredRecords (fs : FileSystem) (exts : List String) (ns baseDir : String) :
    List FileRecord :=
  ((listDir fs baseDir).filter (matchesExt exts)).map
    (fun f => { nsName := ns, path := pathJoin baseDir f, release := releaseOf exts f })

/-- Append records under key `ns`, extending an existing entry or adding a
new one at the end (insertion order preserved). -/
def addRecords (ns : String) (recs : List FileRecord) :
    List (String × List FileRecord) → List (String × List FileRecord)
  | [] => [(ns, recs)]
  | p :: rest =>
    if p.fst == ns then (ns, p.snd ++ recs) :: rest else p :: addRecords ns recs rest

/-- Modelled from the spec: `InspectDir` (§4.1, Go source not under `src/`) —
lists the immediate contents of `baseDir`, filters by extension membership,
and records each matching file under `ns` in traversal order; fails with a
`NotFoundError` identifying the path when `baseDir` is not a directory. -/
def Context.inspectDir (ctx : Context) (fs : FileSystem) (ns baseDir : String)
    (exts : List String) : Except GError Context :=
  if isDir fs baseDir then
    .ok { entries := addRecords ns (discoveredRecords fs exts ns baseDir) ctx.entries }
  else
    .error (.notFound baseDir)

/-! ## Plan / ContextForEnvironment (modelled from the spec, §4.2) -/

/-- Step 1a of the spec algorithm: the namespace is out of this run's scope
(`namespaceFilter` non-empty and the namespace not in it). -/
def skipByFilter (nsFilter : List String) (ns : String) : Bool :=
  !nsFilter.isEmpty && !(stringSliceContains nsFilter ns)

/-- Step 1d of the spec algorithm: file retention for the environment — with
a non-empty `fileSuffixes` keep only files whose (suffix-stripped) name
matches one of the configured suffixes; with an empty one keep all. -/
def keepRecord (env : Environment) (r : FileRecord) : Bool :=
  env.fileSuffixes.isEmpty || env.fileSuffixes.any (fun s => r.release.endsWith s)

/-- Step 1c/1e/1f applied to one retained record: transformed namespace name
and prefixed release identity, original path preserved. -/
def transformRecord (env : Environment) (target : String) (r : FileRecord) : FileRecord :=
  { nsName := target, path := r.path, release := env.transform.releasePfx ++ r.release }

/-- Modelled from the spec: the recursive loop of `ContextForEnvironment`
(§4.2, Go source not under `src/`). `omap` accumulates the
`transformedName → originalNamespace` mapping, `acc` the transformed
context entries, both in input order; a target name already bound in
`omap` fails with a `ConflictError` instead of overwriting. -/
def ctxForEnvGo (env : Environment) (nsFilter : List String)
    (omap : List (String × String)) (acc : List (String × List FileRecord)) :
    List (String × List FileRecord) → Except GError (Context × List (String × String))
  | [] => .ok (⟨acc⟩, omap)
  | (ns, recs) :: rest =>
    if skipByFilter nsFilter ns then
      ctxForEnvGo env nsFilter omap acc rest
    else if stringSliceContains env.skipOnNamespaces ns then
      ctxForEnvGo env nsFilter omap acc rest
    else
      let target := ns ++ env.transform.namespaceSuffix
      match alookup omap target with
      | some prev => .error (.conflict target prev ns)
      | none =>
        let recs2 := (recs.filter (keepRecord env)).map (transformRecord env target)
        ctxForEnvGo env nsFilter (omap ++ [(target, ns)]) (acc ++ [(target, recs2)]) rest

/-- Modelled from the spec: `ContextForEnvironment` (§4.2) — converts a base
`Context` into the environment-specific one and the original-namespace
mapping, or fails with a `ConflictError` on a target-name collision. -/
def contextForEnvironment (env : Environment) (nsFilter : List String) (base : Context) :
    Except GError (Context × List (String × String)) :=
  ctxForEnvGo env nsFilter [] [] base.entries

/-! ## Runtime configuration and orchestrator state -/

/-- Modelled from the spec: the runtime `Config` fields the core reads (§6;
the Go `Config` type is not under `src/`). The comma-lists
`GetEnvironments()` / `GetNamespaces()` are embedded directly as the lists
of requested names, empty meaning "all declared". -/
structure Config where
  dryRun : Bool
  skipSecrets : Bool
  environments : List String
  namespaces : List String
  deriving DecidableEq, Repr

/-- `Config.GetEnvironments`: the requested environment names. -/
def Config.GetEnvironments (cfg : Config) : List String :=
  cfg.environments

/-- `Config.GetNamespaces`: the requested namespace names. -/
def Config.GetNamespaces (cfg : Config) : List String :=
  cfg.namespaces

/-- `Galaxy` holds application runtime items. `Data` (environment name →
list of contexts) and the `envOriginalNs` map are association lists. -/
structure Galaxy where
  dotGalaxy : DotGalaxy
  cfg : Config
  original : List (String × List Context)
  Modified : List (String × List Context)
  envOriginalNs : List (String × List (String × String))
  deriving DecidableEq, Repr

/-- `NewGalaxy` instantiates a new application instance (empty maps). -/
def NewGalaxy (dotGalaxy : DotGalaxy) (cfg : Config) : Galaxy :=
  { dotGalaxy := dotGalaxy, cfg := cfg, original := [], Modified := [], envOriginalNs := [] }

/-- `actOnContext`, called during the `Loop` method: mutates the galaxy
state or fails. -/
def ActOnContext : Type :=
  Galaxy → String → Context → Galaxy × Option GError

/-- The inner namespace loop of `Loop` in collapsed form: both failure
kinds (`GetNamespaceDir`'s plain `return err` and `InspectDir`'s
`logger.Fatalf` process exit) are flattened to an error value. The faithful
form that keeps them apart is `buildCtxRunGo`; `buildCtxGo_eq_run` shows
this one is obtained from it by forgetting the failure kind. -/
def buildCtxGo (fs : FileSystem) (d : DotGalaxy) (ctx : Context) :
    List String → Except GError Context
  | [] => .ok ctx
  | ns :: rest =>
    match d.GetNamespaceDir fs ns with
    | .error e => .error e
    | .ok baseDir =>
      match ctx.inspectDir fs ns baseDir d.spec.namespaces.extensions with
      | .error e => .error e
      | .ok ctx2 => buildCtxGo fs d ctx2 rest

/-- The base context one `Loop` iteration builds (`NewContext` then the
namespace loop); it does not depend on the environment. -/
def buildCtx (fs : FileSystem) (d : DotGalaxy) : Except GError Context :=
  buildCtxGo fs d NewContext d.ListNamespaces

/-- One environment iteration of `Loop`: build the base context, then run
`fn`; an inner error leaves the state as accumulated so far. -/
def iterate (fs : FileSystem) (fn : ActOnContext) (g : Galaxy) (env : String) :
    Galaxy × Option GError :=
  match buildCtx fs g.dotGalaxy with
  | .error e => (g, some e)
  | .ok ctx => fn g env ctx

/-- The environment loop of `Loop`: run `iterate` on each environment in
order, stopping at (and returning) the first error. -/
def loopEnvs (fs : FileSystem) (fn : ActOnContext) : Galaxy → List String → Galaxy × Option GError
  | g, [] => (g, none)
  | g, env :: rest =>
    match iterate fs fn g env with
    | (g2, some e) => (g2, some e)
    | (g2, none) => loopEnvs fs fn g2 rest

/-- `Loop` over environments and its contexts. -/
def Galaxy.Loop (g : Galaxy) (fs : FileSystem) (fn : ActOnContext) : Galaxy × Option GError :=
  loopEnvs fs fn g (g.dotGalaxy.ListEnvironments)

/-- The `actOnContext` closure of `Inspect`:
`g.original[env] = append(g.original[env], ctx)`. -/
def inspectAct : ActOnContext :=
  fun g env ctx =>
    ({ g with original := aset env (alookupD g.original env [] ++ [ctx]) g.original }, none)

/-- `Inspect` directories and files per namespace, create and populate the
context. -/
def Galaxy.Inspect (g : Galaxy) (fs : FileSystem) : Galaxy × Option GError :=
  if !(isDir fs g.dotGalaxy.spec.namespaces.baseDir) then
    (g, some (.notFound g.dotGalaxy.spec.namespaces.baseDir))
  else
    g.Loop fs inspectAct

/-- The `actOnContext` closure of `Plan`: skip environments outside the
requested filter, resolve the environment, transform the context, and save
the original-namespace names and the planned data. -/
def planAct : ActOnContext :=
  fun g envName ctx =>
    if g.cfg.GetEnvironments.length > 0 &&
        !(stringSliceContains g.cfg.GetEnvironments envName) then
      (g, none)
    else
      match g.dotGalaxy.GetEnvironment envName with
      | .error e => (g, some e)
      | .ok env =>
        match contextForEnvironment env g.cfg.GetNamespaces ctx with
        | .error e => (g, some e)
        | .ok (modified, originalNs) =>
          ({ g with
              envOriginalNs := aset envName originalNs g.envOriginalNs,
              Modified := aset envName (alookupD g.Modified envName [] ++ [modified]) g.Modified },
            none)

/-- `Plan` manages the scope of changes, by checking which release files
should be in. -/
def Galaxy.Plan (g : Galaxy) (fs : FileSystem) : Galaxy × Option GError :=
  g.Loop fs planAct

/-- `probeSingleEnv` makes sure a single environment is informed, and it is
present in planned data, and the original names map has it. -/
def Galaxy.probeSingleEnv (g : Galaxy) : Except GError String :=
  if g.cfg.GetEnvironments.length ≠ 1 then
    .error .configuration
  else
    let envName := g.cfg.GetEnvironments.headD ""
    if !(amem g.Modified envName) then
      .error (.notPlannedData envName)
    else if !(amem g.envOriginalNs envName) then
      .error (.notPlannedNs envName)
    else
      .ok envName

/-! ## Apply and the external applier call trace -/

/-- One invocation of an external applier, with the exact arguments the
orchestrator passes at the call site: `v.Bootstrap(ns, g.cfg.DryRun)`,
`v.Apply()`, `l.Bootstrap(ns, originalNs, g.cfg.DryRun)`, `l.Apply()`. -/
inductive ApplierCall where
  | vaultBootstrap (ns : String) (dryRun : Bool)
  | vaultApply
  | landBootstrap (ns originalNs : String) (dryRun : Bool)
  | landApply
  deriving DecidableEq, Repr

/-- An argument value of an applier call. -/
inductive CallArg where
  | str (s : String)
  | bool (b : Bool)
  deriving DecidableEq, Repr

/-- The argument list of an applier call, in the order passed. -/
def ApplierCall.args : ApplierCall → List CallArg
  | .vaultBootstrap ns d => [.str ns, .bool d]
  | .vaultApply => []
  | .landBootstrap ns o d => [.str ns, .str o, .bool d]
  | .landApply => []

/-- Whether a call goes to the secret handler (`VaultHandler`). -/
def ApplierCall.isVault : ApplierCall → Bool
  | .vaultBootstrap _ _ => true
  | .vaultApply => true
  | _ => false

/-- The namespace loop of `Apply` over the `(ns, originalNs)` pairs of
`envOriginalNs[envName]`: secret handling first (unless skipped), then the
release applier, per namespace. -/
def applyLoop (skipSecrets dryRun : Bool) : List (String × String) → List ApplierCall
  | [] => []
  | (ns, originalNs) :: rest =>
    (if skipSecrets then [] else [.vaultBootstrap ns dryRun, .vaultApply]) ++
      [.landBootstrap ns originalNs dryRun, .landApply] ++ applyLoop skipSecrets dryRun rest

/-- The `(ns, originalNs)` pairs `Apply` iterates for the single requested
environment. -/
def applyPairs (g : Galaxy) : List (String × String) :=
  alookupD g.envOriginalNs (g.cfg.GetEnvironments.headD "") []

/-- `Apply` changes planned just before: probe the single requested
environment, resolve it, then per namespace invoke the external appliers.
The external calls are opaque; the result is the trace of invocations, in
order, of a run in which every external call succeeds. -/
def Galaxy.Apply (g : Galaxy) : Except GError (List ApplierCall) :=
  match g.probeSingleEnv with
  | .error e => .error e
  | .ok envName =>
    match g.dotGalaxy.GetEnvironment envName with
    | .error e => .error e
    | .ok _ =>
      .ok (applyLoop g.cfg.skipSecrets g.cfg.dryRun (alookupD g.envOriginalNs envName []))

/-! ## Process-level outcome of a Loop pass -/

/-- A failure of the inner namespace loop of `Loop`, keeping apart its two
abort mechanisms: a `GetNamespaceDir` failure is returned plainly
(`return err`), while an `InspectDir` failure hits `logger.Fatalf`, which
logs and then terminates the process — the `return err` after it is dead
code. -/
inductive CtxFailure where
  | ret (e : GError)
  | fatal (e : GError)
  deriving DecidableEq, Repr

/-- The error carried by either failure kind. -/
def CtxFailure.err : CtxFailure → GError
  | .ret e => e
  | .fatal e => e

/-- The observable outcome of one `Inspect`/`Plan` pass at the process
level: either the method returns — the (possibly error) result and the
mutated state survive in memory — or `logger.Fatalf` has exited the
process with the given status, returning nothing and keeping no state. -/
inductive RunResult where
  | ret (g : Galaxy) (e : Option GError)
  | exit (status : Nat) (e : GError)
  deriving DecidableEq, Repr

/-- Whether the pass actually returned (rather than exiting the process). -/
def RunResult.isRet : RunResult → Bool
  | .ret _ _ => true
  | .exit _ _ => false

/-- The inner namespace loop of `Loop`, failure kinds kept apart: a
`GetNamespaceDir` error is a plain return, an `InspectDir` error is the
fatal-exit path. -/
def buildCtxRunGo (fs : FileSystem) (d : DotGalaxy) (ctx : Context) :
    List String → Except CtxFailure Context
  | [] => .ok ctx
  | ns :: rest =>
    match d.GetNamespaceDir fs ns with
    | .error e => .error (.ret e)
    | .ok baseDir =>
      match ctx.inspectDir fs ns baseDir d.spec.namespaces.extensions with
      | .error e => .error (.fatal e)
      | .ok ctx2 => buildCtxRunGo fs d ctx2 rest

/-- The base context of one `Loop` iteration, failure kinds kept apart. -/
def buildCtxRun (fs : FileSystem) (d : DotGalaxy) : Except CtxFailure Context :=
  buildCtxRunGo fs d NewContext d.ListNamespaces

/-- The environment loop of `Loop` at the process level: a plain failure
(of `GetNamespaceDir` or of `fn`) returns the first error together with the
state accumulated so far; an `InspectDir` failure exits the process with
status 1, returning nothing. -/
def loopRun (fs : FileSystem) (fn : ActOnContext) : Galaxy → List String → RunResult
  | g, [] => .ret g none
  | g, env :: rest =>
    match buildCtxRun fs g.dotGalaxy with
    | .error (.ret e) => .ret g (some e)
    | .error (.fatal e) => .exit 1 e
    | .ok ctx =>
      match fn g env ctx with
      | (g2, some e) => .ret g2 (some e)
      | (g2, none) => loopRun fs fn g2 rest

/-- `Loop` at the process level. -/
def Galaxy.LoopRun (g : Galaxy) (fs : FileSystem) (fn : ActOnContext) : RunResult :=
  loopRun fs fn g g.dotGalaxy.ListEnvironments

/-- `Inspect` at the process level: the base-directory probe is a plain
error return issued before the loop. -/
def Galaxy.InspectRun (g : Galaxy) (fs : FileSystem) : RunResult :=
  if !(isDir fs g.dotGalaxy.spec.namespaces.baseDir) then
    .ret g (some (.notFound g.dotGalaxy.spec.namespaces.baseDir))
  else
    g.LoopRun fs inspectAct

/-- `Plan` at the process level. -/
def Galaxy.PlanRun (g : Galaxy) (fs : FileSystem) : RunResult :=
  g.LoopRun fs planAct

/-! ## Derived notions used by the theorems -/

/-- Whether a call is a `Bootstrap` invocation (of either applier). -/
def ApplierCall.isBootstrap : ApplierCall → Bool
  | .vaultBootstrap _ _ => true
  | .landBootstrap _ _ _ => true
  | _ => false

/-- The transformed namespace names `ContextForEnvironment` will try to
record for an environment, in processing order: one per base-context entry
that is neither filtered out nor skipped. -/
def plannedTargetsL (env : Environment) (nsFilter : List String)
    (l : List (String × List FileRecord)) : List String :=
  (l.filter (fun p => !(skipByFilter nsFilter p.fst) &&
      !(stringSliceContains env.skipOnNamespaces p.fst))).map
    (fun p => p.fst ++ env.transform.namespaceSuffix)

/-- `plannedTargetsL` of a whole base context. -/
def plannedTargets (env : Environment) (nsFilter : List String) (base : Context) :
    List String :=
  plannedTargetsL env nsFilter base.entries

/-- A single `Plan` write for one environment: the planned context and the
original-namespace mapping saved together. -/
def PlanWrite : Type :=
  String × Context × List (String × String)

/-- Apply one `Plan` write to the galaxy state, exactly as `planAct` does. -/
def planWrite (w : PlanWrite) (g : Galaxy) : Galaxy :=
  { g with
    envOriginalNs := aset w.1 w.2.2 g.envOriginalNs,
    Modified := aset w.1 (alookupD g.Modified w.1 [] ++ [w.2.1]) g.Modified }

/-- Apply a sequence of `Plan` writes, oldest first. -/
def planWrites (ws : List PlanWrite) (g : Galaxy) : Galaxy :=
  ws.foldl (fun h w => planWrite w h) g

/-- The contexts a write sequence appends for environment `env`, in order. -/
def modsOf (env : String) (ws : List PlanWrite) : List Context :=
  (ws.filter (fun w => w.1 == env)).map (fun w => w.2.1)

/-- The last original-namespace map a write sequence stores for `env`. -/
def nsOf (env : String) : List PlanWrite → Option (List (String × String))
  | [] => none
  | w :: ws =>
    match nsOf env ws with
    | some v => some v
    | none => if w.1 == env then some w.2.2 else none

/-- The planned-data and original-namespace maps have the same keys. -/
def DomEq (g : Galaxy) : Prop :=
  ∀ k, amem g.Modified k = amem g.envOriginalNs k

/-! ## Concrete fixtures for witnesses and counterexamples -/

/-- A small filesystem: base dir with two namespace dirs. -/
def fsEx : FileSystem :=
  { dirs := ["base", "base/app", "base/web"],
    files := [("base/app", ["a.yaml", "b.txt", "c-prod.yaml"]), ("base/web", ["w.yaml"])] }

/-- As `fsEx`, but the base directory itself is missing. -/
def fsNoBase : FileSystem :=
  { dirs := ["base/app", "base/web"], files := fsEx.files }

/-- As `fsEx`, but the `web` namespace directory is missing. -/
def fsNoWeb : FileSystem :=
  { dirs := ["base", "base/app"], files := fsEx.files }

/-- As `fsEx`, but with no files at all in the namespace directories. -/
def fsDirsOnly : FileSystem :=
  { dirs := ["base", "base/app", "base/web"], files := [] }

/-- A two-environment configuration file over namespaces `app` and `web`. -/
def dEx : DotGalaxy :=
  { spec :=
    { environments :=
        [ { name := "dev", skipOnNamespaces := [], fileSuffixes := [],
            transform := { namespaceSuffix := "", releasePfx := "" } },
          { name := "prod", skipOnNamespaces := ["web"], fileSuffixes := [],
            transform := { namespaceSuffix := "-prod", releasePfx := "p-" } } ],
      namespaces := { baseDir := "base", extensions := [".yaml"], names := ["app", "web"] } } }

/-- A configuration file with two environments sharing the name `dup`. -/
def dDup : DotGalaxy :=
  { spec :=
    { environments :=
        [ { name := "dup", skipOnNamespaces := [], fileSuffixes := [],
            transform := { namespaceSuffix := "-a", releasePfx := "a-" } },
          { name := "dup", skipOnNamespaces := [], fileSuffixes := [],
            transform := { namespaceSuffix := "-b", releasePfx := "b-" } } ],
      namespaces := { baseDir := "base", extensions := [".yaml"], names := ["app"] } } }

/-- Runtime configuration requesting only environment `prod`. -/
def cfgProd : Config :=
  { dryRun := false, skipSecrets := false, environments := ["prod"], namespaces := [] }

/-- Runtime configuration requesting all environments (empty filter). -/
def cfgAll : Config :=
  { dryRun := false, skipSecrets := false, environments := [], namespaces := [] }

/-- Runtime configuration requesting environment `dev` only. -/
def cfgDev : Config :=
  { dryRun := false, skipSecrets := true, environments := ["dev"], namespaces := [] }

/-- A freshly constructed orchestrator with an empty environment request. -/
def gZero : Galaxy :=
  NewGalaxy dEx cfgAll

/-- A freshly constructed orchestrator requesting `dev`, never planned. -/
def gDevFresh : Galaxy :=
  NewGalaxy dEx cfgDev

/-- The orchestrator state after one `Plan` run for `prod` over `fsEx`. -/
def gEx1 : Galaxy :=
  ((NewGalaxy dEx cfgProd).Plan fsEx).1

/-- The applier trace `Apply` produces from `gEx1`. -/
def trProd : List ApplierCall :=
  [.vaultBootstrap "app-prod" false, .vaultApply,
   .landBootstrap "app-prod" "app" false, .landApply]

/-- An environment whose namespace suffix is `-x`. -/
def envC8 : Environment :=
  { name := "prod", skipOnNamespaces := [], fileSuffixes := [],
    transform := { namespaceSuffix := "-x", releasePfx := "" } }

/-- A base context holding the source namespace `app` twice — both entries
transform to the target name `app-x`. -/
def ctxC8 : Context :=
  ⟨[("app", []), ("app", [])]⟩

/-! ## Association-list lemmas -/

theorem alookup_nil {α : Type} (k : String) : alookup ([] : List (String × α)) k = none := by
  simp [alookup]

theorem alookup_cons {α : Type} (p : String × α) (m : List (String × α)) (k : String) :
    alookup (p :: m) k = if p.fst = k then some p.snd else alookup m k := by
  by_cases h : p.fst = k <;> simp [alookup, List.find?_cons, h]

theorem alookup_aset {α : Type} (m : List (String × α)) (k k2 : String) (v : α) :
    alookup (aset k v m) k2 = if k2 = k then some v else alookup m k2 := by
  induction m with
  | nil =>
    by_cases h : k2 = k <;> simp [aset, alookup_cons, alookup_nil, h]
    intro h2
    exact absurd h2.symm h
  | cons p rest ih =>
    by_cases hp : p.fst = k
    · by_cases h : k2 = k
      · simp [aset, hp, alookup_cons, h]
      · simp [aset, hp, alookup_cons, h, Ne.symm h]
    · have hp' : (p.fst == k) = false := by simp [hp]
      by_cases h : k2 = k
      · subst h
        simp [aset, hp', alookup_cons, hp, ih]
      · simp [aset, hp', alookup_cons, ih, h]

theorem amem_aset {α : Type} (m : List (String × α)) (k k2 : String) (v : α) :
    amem (aset k v m) k2 = if k2 = k then true else amem m k2 := by
  by_cases h : k2 = k <;> simp [amem, alookup_aset, h]

theorem alookupD_aset_self {α : Type} (m : List (String × α)) (k : String) (v d : α) :
    alookupD (aset k v m) k d = v := by
  simp [alookupD, alookup_aset]

theorem alookupD_aset_ne {α : Type} (m : List (String × α)) (k k2 : String) (v d : α)
    (h : k2 ≠ k) : alookupD (aset k v m) k2 d = alookupD m k2 d := by
  simp [alookupD, alookup_aset, h]

theorem alookup_isSome_iff {α : Type} (m : List (String × α)) (k : String) :
    (alookup m k).isSome = true ↔ k ∈ m.map Prod.fst := by
  induction m with
  | nil => simp [alookup_nil]
  | cons p rest ih =>
    by_cases h : p.fst = k
    · simp [alookup_cons, h]
    · simp [alookup_cons, h, ih, Ne.symm h]

theorem alookup_none_not_mem {α : Type} (m : List (String × α)) (k : String)
    (h : alookup m k = none) : k ∉ m.map Prod.fst := by
  intro hk
  have := (alookup_isSome_iff m k).mpr hk
  rw [h] at this
  simp at this

/-! ## GetEnvironment lemmas and claim C9 -/

theorem getEnvGo_skip (name : String) (L1 L2 : List Environment)
    (h : ∀ e ∈ L1, e.name ≠ name) :
    getEnvGo name (L1 ++ L2) = getEnvGo name L2 := by
  induction L1 with
  | nil => rfl
  | cons e rest ih =>
    have he : e.name ≠ name := h e (by simp)
    have : (name == e.name) = false := by
      simp [Ne.symm he]
    simp [getEnvGo, this]
    exact ih (fun x hx => h x (by simp [hx]))

theorem getEnvGo_error_iff (name : String) (l : List Environment) :
    (∃ err, getEnvGo name l = .error err) ↔ ∀ e ∈ l, e.name ≠ name := by
  induction l with
  | nil => simp [getEnvGo]
  | cons e rest ih =>
    by_cases h : name = e.name
    · simp [getEnvGo, h]
    · have : (name == e.name) = false := by simp [h]
      simp [getEnvGo, this, ih]
      intro _
      exact fun hc => h hc.symm

/-- Claim C9: `GetEnvironment` returns the first environment in the spec
sequence whose `Name` equals the requested name (first-match-wins, so with
duplicate names the earlier one is returned), and it returns an error if
and only if no environment in the sequence has that name. -/
theorem getEnvironment_first_match_c9 (d : DotGalaxy) (name : String) :
    (∀ L1 env L2, d.spec.environments = L1 ++ env :: L2 →
        (∀ e ∈ L1, e.name ≠ name) → env.name = name →
        d.GetEnvironment name = .ok env)
  ∧ ((∃ err, d.GetEnvironment name = .error err) ↔
        ∀ e ∈ d.spec.environments, e.name ≠ name) := by
  constructor
  · intro L1 env L2 hsplit hskip hname
    unfold DotGalaxy.GetEnvironment
    rw [hsplit, getEnvGo_skip name L1 (env :: L2) hskip]
    simp [getEnvGo, hname]
  · exact getEnvGo_error_iff name d.spec.environments

/-- Witness for C9 at `dDup`, whose two environments both carry the name
`dup`: the lookup returns the first of them (suffix `-a`), and looking up a
missing name errors. -/
theorem getEnvironment_first_match_c9_witness :
    dDup.GetEnvironment "dup" =
      .ok { name := "dup", skipOnNamespaces := [], fileSuffixes := [],
            transform := { namespaceSuffix := "-a", releasePfx := "a-" } } ∧
    (∃ err, dDup.GetEnvironment "missing" = .error err) := by
  constructor
  · exact (getEnvironment_first_match_c9 dDup "dup").1 []
      { name := "dup", skipOnNamespaces := [], fileSuffixes := [],
        transform := { namespaceSuffix := "-a", releasePfx := "a-" } }
      [{ name := "dup", skipOnNamespaces := [], fileSuffixes := [],
         transform := { namespaceSuffix := "-b", releasePfx := "b-" } }]
      rfl (by simp) rfl
  · exact (getEnvironment_first_match_c9 dDup "missing").2.mpr (by decide)

/-! ## probeSingleEnv lemmas and claim C1 -/

theorem probe_ok_inv (g : Galaxy) (envName : String)
    (h : g.probeSingleEnv = .ok envName) :
    g.cfg.GetEnvironments = [envName] ∧
    amem g.Modified envName = true ∧ amem g.envOriginalNs envName = true := by
  unfold Galaxy.probeSingleEnv at h
  by_cases h1 : g.cfg.GetEnvironments.length ≠ 1
  · simp [h1] at h
  · simp [h1] at h
    push_neg at h1
    obtain ⟨e, he⟩ := List.length_eq_one.mp h1
    rw [he] at h
    simp [List.headD] at h
    by_cases h2 : amem g.Modified e
    · by_cases h3 : amem g.envOriginalNs e
      · simp [h2, h3] at h
        subst h
        exact ⟨he, h2, h3⟩
      · simp [h2, h3] at h
    · simp [h2] at h

/-- Claim C1: `Apply` first runs the single-environment probe — it fails
with the configuration error when the number of requested environments is
not exactly 1, with the not-planned errors when the single requested
environment is missing from `Modified` or from `envOriginalNs`, and it
reaches the external appliers (returns a call trace) only when all three
checks pass. -/
theorem apply_probe_single_env_c1 (g : Galaxy) :
    (g.cfg.GetEnvironments.length ≠ 1 → g.Apply = .error .configuration)
  ∧ (∀ e, g.cfg.GetEnvironments = [e] → amem g.Modified e = false →
        g.Apply = .error (.notPlannedData e))
  ∧ (∀ e, g.cfg.GetEnvironments = [e] → amem g.Modified e = true →
        amem g.envOriginalNs e = false → g.Apply = .error (.notPlannedNs e))
  ∧ (∀ tr, g.Apply = .ok tr →
        ∃ e, g.cfg.GetEnvironments = [e] ∧
          amem g.Modified e = true ∧ amem g.envOriginalNs e = true) := by
  refine ⟨?_, ?_, ?_, ?_⟩
  · intro h
    simp [Galaxy.Apply, Galaxy.probeSingleEnv, h]
  · intro e he hmem
    have hlen : ¬ g.cfg.GetEnvironments.length ≠ 1 := by simp [he]
    simp [Galaxy.Apply, Galaxy.probeSingleEnv, hlen, he, List.headD, hmem]
  · intro e he hmem hns
    have hlen : ¬ g.cfg.GetEnvironments.length ≠ 1 := by simp [he]
    simp [Galaxy.Apply, Galaxy.probeSingleEnv, hlen, he, List.headD, hmem, hns]
  · intro tr h
    unfold Galaxy.Apply at h
    cases hp : g.probeSingleEnv with
    | error e => rw [hp] at h; exact absurd h (by simp)
    | ok envName =>
      exact ⟨envName, probe_ok_inv g envName hp⟩

/-- Witness for C1: with no environment requested `Apply` fails with the
configuration error; requesting the never-planned `dev` fails with the
planned-data error. -/
theorem apply_probe_single_env_c1_witness :
    gZero.Apply = .error .configuration ∧
    gDevFresh.Apply = .error (.notPlannedData "dev") := by
  constructor
  · exact (apply_probe_single_env_c1 gZero).1 (by decide)
  · exact (apply_probe_single_env_c1 gDevFresh).2.1 "dev" rfl (by decide)

/-! ## Apply trace lemmas and claims C2, C3 -/

theorem apply_ok_trace (g : Galaxy) (tr : List ApplierCall) (h : g.Apply = .ok tr) :
    tr = applyLoop g.cfg.skipSecrets g.cfg.dryRun (applyPairs g) := by
  unfold Galaxy.Apply at h
  split at h
  · exact absurd h (by simp)
  · rename_i envName hp
    split at h
    · exact absurd h (by simp)
    · rename_i env hg
      have henv := (probe_ok_inv g envName hp).1
      simp at h
      rw [← h]
      simp [applyPairs, henv, List.headD]

theorem applyLoop_mem_sublist (dryRun : Bool) (ns originalNs : String)
    (pairs : List (String × String)) (hmem : (ns, originalNs) ∈ pairs) :
    [ApplierCall.vaultBootstrap ns dryRun, ApplierCall.vaultApply,
     ApplierCall.landBootstrap ns originalNs dryRun, ApplierCall.landApply].Sublist
      (applyLoop false dryRun pairs) := by
  induction pairs with
  | nil => simp at hmem
  | cons p rest ih =>
    obtain ⟨p1, p2⟩ := p
    rcases List.mem_cons.mp hmem with heq | htail
    · cases heq
      exact List.sublist_append_left _ _
    · exact (ih htail).trans (List.sublist_append_right _ _)

theorem applyLoop_skip_no_vault (dryRun : Bool) (pairs : List (String × String)) :
    ∀ c ∈ applyLoop true dryRun pairs, c.isVault = false := by
  induction pairs with
  | nil => simp [applyLoop]
  | cons p rest ih =>
    obtain ⟨p1, p2⟩ := p
    intro c hc
    simp [applyLoop] at hc
    rcases hc with h | h | h
    · subst h; rfl
    · subst h; rfl
    · exact ih c h

theorem applyLoop_skip_mem_sublist (dryRun : Bool) (ns originalNs : String)
    (pairs : List (String × String)) (hmem : (ns, originalNs) ∈ pairs) :
    [ApplierCall.landBootstrap ns originalNs dryRun, ApplierCall.landApply].Sublist
      (applyLoop true dryRun pairs) := by
  induction pairs with
  | nil => simp at hmem
  | cons p rest ih =>
    obtain ⟨p1, p2⟩ := p
    rcases List.mem_cons.mp hmem with heq | htail
    · cases heq
      exact List.sublist_append_left _ _
    · exact (ih htail).trans (List.sublist_append_right _ _)

/-- Claim C2: in a successful `Apply`, for every `(ns, originalNs)` pair of
the environment's original-namespace map, with secrets enabled the secret
handler's `Bootstrap` and `Apply` occur before the release applier's
`Bootstrap` and `Apply` for that namespace, in that fixed order (a sublist
of the trace); with secrets disabled the secret handler is never invoked
and only the release applier runs. -/
theorem apply_secrets_before_release_c2 (g : Galaxy) (tr : List ApplierCall)
    (h : g.Apply = .ok tr) :
    (g.cfg.skipSecrets = false →
      ∀ ns originalNs, (ns, originalNs) ∈ applyPairs g →
        [ApplierCall.vaultBootstrap ns g.cfg.dryRun, ApplierCall.vaultApply,
         ApplierCall.landBootstrap ns originalNs g.cfg.dryRun, ApplierCall.landApply].Sublist tr)
  ∧ (g.cfg.skipSecrets = true →
      (∀ c ∈ tr, c.isVault = false) ∧
      ∀ ns originalNs, (ns, originalNs) ∈ applyPairs g →
        [ApplierCall.landBootstrap ns originalNs g.cfg.dryRun, ApplierCall.landApply].Sublist tr) := by
  have htr := apply_ok_trace g tr h
  constructor
  · intro hskip ns originalNs hmem
    rw [htr, hskip]
    exact applyLoop_mem_sublist g.cfg.dryRun ns originalNs (applyPairs g) hmem
  · intro hskip
    rw [htr, hskip]
    exact ⟨applyLoop_skip_no_vault g.cfg.dryRun (applyPairs g),
      fun ns originalNs hmem =>
        applyLoop_skip_mem_sublist g.cfg.dryRun ns originalNs (applyPairs g) hmem⟩

/-- Witness for C2 at the planned `prod` state: the four calls for namespace
`app-prod` (original `app`) appear as a sublist of the trace. -/
theorem apply_secrets_before_release_c2_witness :
    [ApplierCall.vaultBootstrap "app-prod" false, ApplierCall.vaultApply,
     ApplierCall.landBootstrap "app-prod" "app" false, ApplierCall.landApply].Sublist trProd :=
  (apply_secrets_before_release_c2 gEx1 trProd rfl).1 rfl
    "app-prod" "app" (by decide)

theorem applyLoop_countP_vaultBootstrap (dryRun : Bool) (ns : String)
    (pairs : List (String × String)) :
    (applyLoop false dryRun pairs).countP
        (fun c => c == ApplierCall.vaultBootstrap ns dryRun) =
      pairs.countP (fun p => p.fst == ns) := by
  induction pairs with
  | nil => rfl
  | cons p rest ih =>
    obtain ⟨p1, p2⟩ := p
    by_cases h : p1 = ns
    · subst h
      simp [applyLoop, List.countP_cons, ih]
    · simp [applyLoop, List.countP_cons, ih, h]

theorem applyLoop_countP_vaultApply (dryRun : Bool) (pairs : List (String × String)) :
    (applyLoop false dryRun pairs).countP (fun c => c == ApplierCall.vaultApply) =
      pairs.length := by
  induction pairs with
  | nil => rfl
  | cons p rest ih =>
    obtain ⟨p1, p2⟩ := p
    simp [applyLoop, List.countP_cons, ih]

theorem applyLoop_countP_landApply (skip dryRun : Bool) (pairs : List (String × String)) :
    (applyLoop skip dryRun pairs).countP (fun c => c == ApplierCall.landApply) =
      pairs.length := by
  induction pairs with
  | nil => cases skip <;> rfl
  | cons p rest ih =>
    obtain ⟨p1, p2⟩ := p
    cases skip <;> simp [applyLoop, List.countP_cons, ih]

theorem applyLoop_countP_landBootstrap (skip dryRun : Bool) (ns originalNs : String)
    (pairs : List (String × String)) :
    (applyLoop skip dryRun pairs).countP
        (fun c => c == ApplierCall.landBootstrap ns originalNs dryRun) =
      pairs.countP (fun p => p == (ns, originalNs)) := by
  induction pairs with
  | nil => cases skip <;> rfl
  | cons p rest ih =>
    obtain ⟨p1, p2⟩ := p
    by_cases h1 : p1 = ns
    · by_cases h2 : p2 = originalNs
      · subst h1; subst h2
        cases skip <;> simp [applyLoop, List.countP_cons, ih, Prod.ext_iff]
      · cases skip <;> simp [applyLoop, List.countP_cons, ih, Prod.ext_iff, h2]
    · cases skip <;> simp [applyLoop, List.countP_cons, ih, Prod.ext_iff, h1]

theorem countP_pair_unique (pairs : List (String × String)) (ns originalNs : String)
    (h1 : pairs.countP (fun p => p.fst == ns) = 1) (h2 : (ns, originalNs) ∈ pairs) :
    pairs.countP (fun p => p == (ns, originalNs)) = 1 := by
  induction pairs with
  | nil => simp at h2
  | cons p rest ih =>
    obtain ⟨p1, p2⟩ := p
    by_cases hp : p1 = ns
    · subst hp
      have hrest : ∀ a b, (a, b) ∈ rest → ¬ a = p1 := by
        have h1' := h1
        simp [List.countP_cons] at h1'
        exact h1'
      rcases List.mem_cons.mp h2 with heq | htail
      · cases heq
        have hz : rest.countP (fun p => p == (p1, originalNs)) = 0 := by
          rw [List.countP_eq_zero]
          intro a ha
          obtain ⟨a1, a2⟩ := a
          simp [Prod.ext_iff]
          intro hc
          exact absurd hc (hrest a1 a2 ha)
        simp [List.countP_cons, hz]
      · exact absurd rfl (hrest p1 originalNs htail)
    · rcases List.mem_cons.mp h2 with heq | htail
      · exact absurd (congrArg Prod.fst heq).symm hp
      · have h1' : rest.countP (fun p => p.fst == ns) = 1 := by
          simpa [List.countP_cons, hp] using h1
        have := ih h1' htail
        simpa [List.countP_cons, Prod.ext_iff, hp] using this

/-- Claim C3 as stated is false at `gEx1`: in the successful `Apply` run the
secret handler's `Bootstrap` is invoked (exactly once) for the pair
`("app-prod", "app")`, but zero of its invocations carry the argument list
`(namespace, originalNamespace, dryRun)` of the stated capability contract —
the call site passes only `(namespace, dryRun)`. -/
theorem apply_bootstrap_args_cex_c3 :
    gEx1.Apply = .ok trProd ∧
    ("app-prod", "app") ∈ applyPairs gEx1 ∧
    gEx1.cfg.skipSecrets = false ∧
    trProd.countP (fun c => c.isVault && c.isBootstrap) = 1 ∧
    trProd.countP (fun c => c.isVault && c.isBootstrap &&
      c.args == [.str "app-prod", .str "app", .bool gEx1.cfg.dryRun]) = 0 := by
  exact ⟨rfl, by decide, rfl, by decide, by decide⟩

/-- Claim C3 amended: for every `(namespace, originalNamespace)` pair of the
processed environment (occurring once, as map iteration guarantees), the
release applier's `Bootstrap` is called exactly once and receives
`(namespace, originalNamespace, dryRun)`; the secret handler's `Bootstrap`
(when secrets are enabled) is called exactly once but receives only
`(namespace, dryRun)` — not the original namespace; each applier's `Apply`
is called exactly once per pair. -/
theorem apply_bootstrap_once_amended_c3 (g : Galaxy) (tr : List ApplierCall)
    (h : g.Apply = .ok tr) (ns originalNs : String)
    (hone : (applyPairs g).countP (fun p => p.fst == ns) = 1)
    (hmem : (ns, originalNs) ∈ applyPairs g) :
    (g.cfg.skipSecrets = false →
      tr.countP (fun c => c == ApplierCall.vaultBootstrap ns g.cfg.dryRun) = 1 ∧
      tr.countP (fun c => c == ApplierCall.vaultApply) = (applyPairs g).length) ∧
    tr.countP (fun c => c == ApplierCall.landBootstrap ns originalNs g.cfg.dryRun) = 1 ∧
    tr.countP (fun c => c == ApplierCall.landApply) = (applyPairs g).length ∧
    ApplierCall.args (.vaultBootstrap ns g.cfg.dryRun) = [.str ns, .bool g.cfg.dryRun] ∧
    ApplierCall.args (.landBootstrap ns originalNs g.cfg.dryRun) =
      [.str ns, .str originalNs, .bool g.cfg.dryRun] := by
  have htr := apply_ok_trace g tr h
  refine ⟨?_, ?_, ?_, rfl, rfl⟩
  · intro hskip
    rw [htr, hskip]
    exact ⟨by rw [applyLoop_countP_vaultBootstrap]; exact hone,
      applyLoop_countP_vaultApply g.cfg.dryRun (applyPairs g)⟩
  · rw [htr, applyLoop_countP_landBootstrap]
    exact countP_pair_unique (applyPairs g) ns originalNs hone hmem
  · rw [htr]
    exact applyLoop_countP_landApply g.cfg.skipSecrets g.cfg.dryRun (applyPairs g)

/-- Witness for the amended C3 at `gEx1`: concrete counts over `trProd`. -/
theorem apply_bootstrap_once_amended_c3_witness :
    trProd.countP (fun c => c == ApplierCall.vaultBootstrap "app-prod" false) = 1 ∧
    trProd.countP (fun c => c == ApplierCall.landBootstrap "app-prod" "app" false) = 1 ∧
    trProd.countP (fun c => c == ApplierCall.landApply) = (applyPairs gEx1).length := by
  have := apply_bootstrap_once_amended_c3 gEx1 trProd rfl "app-prod" "app"
    (by decide) (by decide)
  exact ⟨(this.1 rfl).1, this.2.1, this.2.2.1⟩

/-! ## Loop infrastructure -/

theorem planAct_eq (g : Galaxy) (envName : String) (ctx : Context) :
    planAct g envName ctx =
      if g.cfg.GetEnvironments.length > 0 &&
          !(stringSliceContains g.cfg.GetEnvironments envName) then
        (g, none)
      else
        match g.dotGalaxy.GetEnvironment envName with
        | .error e => (g, some e)
        | .ok env =>
          match contextForEnvironment env g.cfg.GetNamespaces ctx with
          | .error e => (g, some e)
          | .ok (modified, originalNs) =>
            (planWrite (envName, modified, originalNs) g, none) :=
  rfl

theorem planWrite_dotGalaxy (w : PlanWrite) (g : Galaxy) :
    (planWrite w g).dotGalaxy = g.dotGalaxy ∧ (planWrite w g).cfg = g.cfg :=
  ⟨rfl, rfl⟩

theorem planAct_shape (g : Galaxy) (envName : String) (ctx : Context) :
    (planAct g envName ctx).1 = g ∨
    ((g.cfg.GetEnvironments ≠ [] → envName ∈ g.cfg.GetEnvironments) ∧
      ∃ w : PlanWrite, w.1 = envName ∧ (planAct g envName ctx).1 = planWrite w g) := by
  rw [planAct_eq]
  by_cases hskip : (g.cfg.GetEnvironments.length > 0 &&
      !(stringSliceContains g.cfg.GetEnvironments envName)) = true
  · rw [if_pos hskip]
    left
    rfl
  · rw [if_neg hskip]
    have hmem : g.cfg.GetEnvironments ≠ [] → envName ∈ g.cfg.GetEnvironments := by
      intro hne
      have hlen : g.cfg.GetEnvironments.length > 0 := by
        cases hl : g.cfg.GetEnvironments with
        | nil => exact absurd hl hne
        | cons a l => simp [hl]
      simp [hlen] at hskip
      simpa [stringSliceContains] using hskip
    split
    · left
      rfl
    · split
      · left
        rfl
      · right
        exact ⟨hmem, (envName, _, _), rfl, rfl⟩

theorem planAct_meta (g : Galaxy) (envName : String) (ctx : Context) :
    (planAct g envName ctx).1.dotGalaxy = g.dotGalaxy ∧
    (planAct g envName ctx).1.cfg = g.cfg := by
  rcases planAct_shape g envName ctx with h | ⟨_, w, _, h⟩
  · rw [h]
    exact ⟨rfl, rfl⟩
  · rw [h]
    exact planWrite_dotGalaxy w g

theorem planAct_error_state (g : Galaxy) (envName : String) (ctx : Context)
    (g2 : Galaxy) (e : GError) (h : planAct g envName ctx = (g2, some e)) :
    g2 = g := by
  rw [planAct_eq] at h
  by_cases hskip : (g.cfg.GetEnvironments.length > 0 &&
      !(stringSliceContains g.cfg.GetEnvironments envName)) = true
  · rw [if_pos hskip] at h
    simp at h
  · rw [if_neg hskip] at h
    split at h
    · simp at h
      exact h.1.symm
    · split at h
      · simp at h
        exact h.1.symm
      · simp at h

theorem iterate_plan_error_state (fs : FileSystem) (g : Galaxy) (env : String)
    (g2 : Galaxy) (e : GError) (h : iterate fs planAct g env = (g2, some e)) :
    g2 = g := by
  unfold iterate at h
  split at h
  · simp at h
    exact h.1.symm
  · exact planAct_error_state g env _ g2 e h

theorem iterate_inspect_error_state (fs : FileSystem) (g : Galaxy) (env : String)
    (g2 : Galaxy) (e : GError) (h : iterate fs inspectAct g env = (g2, some e)) :
    g2 = g := by
  unfold iterate at h
  split at h
  · simp at h
    exact h.1.symm
  · simp [inspectAct] at h

theorem loopEnvs_append (fs : FileSystem) (fn : ActOnContext) (g : Galaxy)
    (L1 L2 : List String) :
    loopEnvs fs fn g (L1 ++ L2) =
      match loopEnvs fs fn g L1 with
      | (g1, none) => loopEnvs fs fn g1 L2
      | (g1, some e) => (g1, some e) := by
  induction L1 generalizing g with
  | nil => simp [loopEnvs]
  | cons env rest ih =>
    rw [List.cons_append]
    rw [loopEnvs, loopEnvs]
    cases hi : iterate fs fn g env with
    | mk g2 e =>
      cases e with
      | none => exact ih g2
      | some e2 => rfl

/-! ## Claim C7: how a pass aborts on its first failure -/

theorem buildCtxGo_eq_run (fs : FileSystem) (d : DotGalaxy) :
    ∀ (names : List String) (ctx : Context),
      buildCtxGo fs d ctx names =
        match buildCtxRunGo fs d ctx names with
        | .ok c => .ok c
        | .error f => .error f.err := by
  intro names
  induction names with
  | nil =>
    intro ctx
    rfl
  | cons ns rest ih =>
    intro ctx
    rw [buildCtxGo, buildCtxRunGo]
    cases hg : d.GetNamespaceDir fs ns with
    | error e => simp [CtxFailure.err]
    | ok baseDir =>
      cases hi : ctx.inspectDir fs ns baseDir d.spec.namespaces.extensions with
      | error e => simp [hi, CtxFailure.err]
      | ok ctx2 => simp [hi, ih ctx2]

theorem buildCtx_eq_run (fs : FileSystem) (d : DotGalaxy) :
    buildCtx fs d =
      match buildCtxRun fs d with
      | .ok c => .ok c
      | .error f => .error f.err :=
  buildCtxGo_eq_run fs d d.ListNamespaces NewContext

theorem iterate_eq_run (fs : FileSystem) (fn : ActOnContext) (g : Galaxy)
    (env : String) :
    iterate fs fn g env =
      match buildCtxRun fs g.dotGalaxy with
      | .error f => (g, some f.err)
      | .ok ctx => fn g env ctx := by
  unfold iterate
  rw [buildCtx_eq_run]
  cases hb : buildCtxRun fs g.dotGalaxy with
  | error f => cases f <;> simp [CtxFailure.err]
  | ok ctx => simp

theorem loopEnvs_of_loopRun_ret (fs : FileSystem) (fn : ActOnContext) :
    ∀ (L : List String) (g g2 : Galaxy) (e : Option GError),
      loopRun fs fn g L = .ret g2 e → loopEnvs fs fn g L = (g2, e) := by
  intro L
  induction L with
  | nil =>
    intro g g2 e h
    have h2 : RunResult.ret g none = .ret g2 e := h
    simp at h2
    rw [loopEnvs, h2.1, ← h2.2]
  | cons env rest ih =>
    intro g g2 e h
    rw [loopRun] at h
    rw [loopEnvs, iterate_eq_run]
    cases hb : buildCtxRun fs g.dotGalaxy with
    | error f =>
      rw [hb] at h
      cases f with
      | ret e2 =>
        have h2 : RunResult.ret g (some e2) = .ret g2 e := h
        simp at h2
        simp [CtxFailure.err, h2.1, ← h2.2]
      | fatal e2 =>
        have h2 : RunResult.exit 1 e2 = .ret g2 e := h
        simp at h2
    | ok ctx =>
      rw [hb] at h
      have h3 : (match fn g env ctx with
          | (gr, some er) => RunResult.ret gr (some er)
          | (gr, none) => loopRun fs fn gr rest) = RunResult.ret g2 e := h
      cases hf : fn g env ctx with
      | mk gm eo =>
        rw [hf] at h3
        cases eo with
        | some e2 =>
          have h2 : RunResult.ret gm (some e2) = .ret g2 e := h3
          simp at h2
          simp [hf, h2.1, ← h2.2]
        | none =>
          have h2 : loopRun fs fn gm rest = .ret g2 e := h3
          simp only [hf]
          exact ih gm g2 e h2

theorem plan_of_planRun_ret (g : Galaxy) (fs : FileSystem) (g2 : Galaxy)
    (e : Option GError) (h : g.PlanRun fs = .ret g2 e) : g.Plan fs = (g2, e) :=
  loopEnvs_of_loopRun_ret fs planAct g.dotGalaxy.ListEnvironments g g2 e h

theorem inspect_of_inspectRun_ret (g : Galaxy) (fs : FileSystem) (g2 : Galaxy)
    (e : Option GError) (h : g.InspectRun fs = .ret g2 e) : g.Inspect fs = (g2, e) := by
  unfold Galaxy.InspectRun at h
  unfold Galaxy.Inspect
  by_cases hdir : isDir fs g.dotGalaxy.spec.namespaces.baseDir = true
  · have hcond : ¬ ((!isDir fs g.dotGalaxy.spec.namespaces.baseDir) = true) := by
      rw [hdir]
      decide
    rw [if_neg hcond] at h
    rw [if_neg hcond]
    exact loopEnvs_of_loopRun_ret fs inspectAct g.dotGalaxy.ListEnvironments g g2 e h
  · have hdirf : isDir fs g.dotGalaxy.spec.namespaces.baseDir = false := by
      simpa using hdir
    have hcond : (!isDir fs g.dotGalaxy.spec.namespaces.baseDir) = true := by
      rw [hdirf]
      decide
    rw [if_pos hcond] at h
    rw [if_pos hcond]
    simp at h
    obtain ⟨hg, he⟩ := h
    subst hg
    subst he
    rfl

theorem loopRun_append (fs : FileSystem) (fn : ActOnContext) (g : Galaxy)
    (L1 L2 : List String) :
    loopRun fs fn g (L1 ++ L2) =
      match loopRun fs fn g L1 with
      | .ret g1 none => loopRun fs fn g1 L2
      | .ret g1 (some e) => .ret g1 (some e)
      | .exit s e => .exit s e := by
  induction L1 generalizing g with
  | nil => simp [loopRun]
  | cons env rest ih =>
    rw [List.cons_append, loopRun, loopRun]
    cases hb : buildCtxRun fs g.dotGalaxy with
    | error f =>
      cases f with
      | ret e => simp
      | fatal e => simp
    | ok ctx =>
      cases hf : fn g env ctx with
      | mk gm eo =>
        cases eo with
        | some e2 => simp [hf]
        | none => simp [hf, ih gm]

/-- Claim C7 as stated is false on the inspection-failure path: with the
`web` namespace directory missing, `InspectDir` fails and `logger.Fatalf`
terminates the process with exit status 1 — for both `Plan` and `Inspect`
the pass does not return at all (no `.ret` outcome), so the loop neither
returns the first error nor leaves the accumulated results in memory. -/
theorem loop_fatal_exit_cex_c7 :
    (NewGalaxy dEx cfgProd).PlanRun fsNoWeb = .exit 1 (.notFound "base/web") ∧
    ((NewGalaxy dEx cfgProd).PlanRun fsNoWeb).isRet = false ∧
    (NewGalaxy dEx cfgProd).InspectRun fsNoWeb = .exit 1 (.notFound "base/web") ∧
    ((NewGalaxy dEx cfgProd).InspectRun fsNoWeb).isRet = false := by
  exact ⟨rfl, rfl, rfl, rfl⟩

/-- Claim C7 amended: a failure of the per-environment action (for `Plan`,
the planning step) or of the namespace-directory resolution aborts the
whole pass with the loop returning the first error — later environments are
never processed, nothing already accumulated is rolled back, and the
returned state is exactly the accumulation so far; but a failure inside a
namespace's `InspectDir` hits `logger.Fatalf`, which terminates the
process with exit status 1 — that first error is surfaced by the fatal log
(never swallowed), yet on this path the loop returns nothing and no
accumulated results remain in memory. -/
theorem loop_first_error_amended_c7 (fs : FileSystem) (g g1 g2 : Galaxy)
    (L1 L2 : List String) (env : String) (e : GError) :
    (∀ fn : ActOnContext, g.dotGalaxy.ListEnvironments = L1 ++ env :: L2 →
      loopRun fs fn g L1 = .ret g1 none →
      ∀ ctx, buildCtxRun fs g1.dotGalaxy = .ok ctx →
        fn g1 env ctx = (g2, some e) →
        g.LoopRun fs fn = .ret g2 (some e))
  ∧ (g.dotGalaxy.ListEnvironments = L1 ++ env :: L2 →
      loopRun fs planAct g L1 = .ret g1 none →
      buildCtxRun fs g1.dotGalaxy = .error (.ret e) →
      g.PlanRun fs = .ret g1 (some e))
  ∧ (g.dotGalaxy.ListEnvironments = L1 ++ env :: L2 →
      loopRun fs planAct g L1 = .ret g1 none →
      buildCtxRun fs g1.dotGalaxy = .error (.fatal e) →
      g.PlanRun fs = .exit 1 e)
  ∧ (g.dotGalaxy.ListEnvironments = L1 ++ env :: L2 →
      isDir fs g.dotGalaxy.spec.namespaces.baseDir = true →
      loopRun fs inspectAct g L1 = .ret g1 none →
      buildCtxRun fs g1.dotGalaxy = .error (.fatal e) →
      g.InspectRun fs = .exit 1 e) := by
  refine ⟨?_, ?_, ?_, ?_⟩
  · intro fn hL h1 ctx hok hfn
    unfold Galaxy.LoopRun
    rw [hL, loopRun_append, h1]
    show loopRun fs fn g1 (env :: L2) = .ret g2 (some e)
    rw [loopRun]
    simp [hok, hfn]
  · intro hL h1 hb
    unfold Galaxy.PlanRun Galaxy.LoopRun
    rw [hL, loopRun_append, h1]
    show loopRun fs planAct g1 (env :: L2) = .ret g1 (some e)
    rw [loopRun]
    simp [hb]
  · intro hL h1 hb
    unfold Galaxy.PlanRun Galaxy.LoopRun
    rw [hL, loopRun_append, h1]
    show loopRun fs planAct g1 (env :: L2) = .exit 1 e
    rw [loopRun]
    simp [hb]
  · intro hL hdir h1 hb
    unfold Galaxy.InspectRun
    have hcond : ¬ ((!isDir fs g.dotGalaxy.spec.namespaces.baseDir) = true) := by
      rw [hdir]
      decide
    rw [if_neg hcond]
    unfold Galaxy.LoopRun
    rw [hL, loopRun_append, h1]
    show loopRun fs inspectAct g1 (env :: L2) = .exit 1 e
    rw [loopRun]
    simp [hb]

/-- Witness for the amended C7 at concrete inputs: an action failure at the
first environment returns the error with the state intact; a missing base
directory makes `Plan`'s namespace resolution return its error plainly;
the missing `web` directory makes both `Plan` and `Inspect` exit the
process with status 1. -/
theorem loop_first_error_amended_c7_witness :
    (NewGalaxy dEx cfgProd).LoopRun fsDirsOnly
        (fun g _ _ => (g, some GError.configuration)) =
      .ret (NewGalaxy dEx cfgProd) (some .configuration) ∧
    (NewGalaxy dEx cfgProd).PlanRun fsNoBase =
      .ret (NewGalaxy dEx cfgProd) (some (.baseDirNotDir "base")) ∧
    (NewGalaxy dEx cfgProd).PlanRun fsNoWeb = .exit 1 (.notFound "base/web") ∧
    (NewGalaxy dEx cfgProd).InspectRun fsNoWeb = .exit 1 (.notFound "base/web") := by
  refine ⟨?_, ?_, ?_, ?_⟩
  · exact (loop_first_error_amended_c7 fsDirsOnly (NewGalaxy dEx cfgProd)
      (NewGalaxy dEx cfgProd) (NewGalaxy dEx cfgProd) [] ["prod"] "dev"
      .configuration).1 (fun g _ _ => (g, some GError.configuration)) rfl rfl
      ⟨[("app", []), ("web", [])]⟩ rfl rfl
  · exact (loop_first_error_amended_c7 fsNoBase (NewGalaxy dEx cfgProd)
      (NewGalaxy dEx cfgProd) (NewGalaxy dEx cfgProd) [] ["prod"] "dev"
      (.baseDirNotDir "base")).2.1 rfl rfl rfl
  · exact (loop_first_error_amended_c7 fsNoWeb (NewGalaxy dEx cfgProd)
      (NewGalaxy dEx cfgProd) (NewGalaxy dEx cfgProd) [] ["prod"] "dev"
      (.notFound "base/web")).2.2.1 rfl rfl rfl
  · exact (loop_first_error_amended_c7 fsNoWeb (NewGalaxy dEx cfgProd)
      (NewGalaxy dEx cfgProd) (NewGalaxy dEx cfgProd) [] ["prod"] "dev"
      (.notFound "base/web")).2.2.2 rfl rfl rfl rfl

/-! ## Claim C10: Modified and envOriginalNs are written together -/

theorem planAct_preserves_domEq (g : Galaxy) (envName : String) (ctx : Context)
    (h : DomEq g) : DomEq (planAct g envName ctx).1 := by
  rcases planAct_shape g envName ctx with hs | ⟨_, w, hw, hs⟩
  · rw [hs]
    exact h
  · rw [hs]
    intro k
    show amem (aset w.1 (alookupD g.Modified w.1 [] ++ [w.2.1]) g.Modified) k =
      amem (aset w.1 w.2.2 g.envOriginalNs) k
    rw [amem_aset, amem_aset]
    by_cases hk : k = w.1
    · simp [hk]
    · simp [hk, h k]

theorem iterate_plan_preserves_domEq (fs : FileSystem) (g : Galaxy) (env : String)
    (h : DomEq g) : DomEq (iterate fs planAct g env).1 := by
  unfold iterate
  cases hb : buildCtx fs g.dotGalaxy with
  | error e => exact h
  | ok ctx => exact planAct_preserves_domEq g env ctx h

theorem loopEnvs_plan_preserves_domEq (fs : FileSystem) (L : List String) :
    ∀ g : Galaxy, DomEq g → DomEq (loopEnvs fs planAct g L).1 := by
  induction L with
  | nil => intro g h; exact h
  | cons env rest ih =>
    intro g h
    have hit : DomEq (iterate fs planAct g env).1 :=
      iterate_plan_preserves_domEq fs g env h
    rw [loopEnvs]
    cases hi : iterate fs planAct g env with
    | mk g2 e =>
      rw [hi] at hit
      cases e with
      | some e2 => exact hit
      | none => exact ih g2 hit

/-- Claim C10: `Plan` writes the planned-data entry and the
original-namespace entry for an environment together, so starting from the
empty maps of `NewGalaxy`, after any sequence of `Plan` invocations an
environment has an entry in `Modified` iff it has one in `envOriginalNs`;
consequently `probeSingleEnv` can never fail its second presence check
(the `notPlannedNs` error is unreachable). -/
theorem plan_writes_together_c10 :
    (∀ (d : DotGalaxy) (cfg : Config), DomEq (NewGalaxy d cfg))
  ∧ (∀ (g : Galaxy) (fs : FileSystem), DomEq g → DomEq (g.Plan fs).1)
  ∧ (∀ g : Galaxy, DomEq g →
      ∀ env, g.probeSingleEnv ≠ .error (.notPlannedNs env)) := by
  refine ⟨?_, ?_, ?_⟩
  · intro d cfg _
    rfl
  · intro g fs h
    exact loopEnvs_plan_preserves_domEq fs g.dotGalaxy.ListEnvironments g h
  · intro g h env hcontra
    unfold Galaxy.probeSingleEnv at hcontra
    by_cases h1 : g.cfg.GetEnvironments.length ≠ 1
    · simp [h1] at hcontra
    · simp only [h1, if_false] at hcontra
      by_cases h2 : amem g.Modified (g.cfg.GetEnvironments.headD "") = false
      · have hcond : (!amem g.Modified (g.cfg.GetEnvironments.headD "")) = true := by
          rw [h2]
          decide
        rw [if_pos hcond] at hcontra
        simp at hcontra
      · have h2t : amem g.Modified (g.cfg.GetEnvironments.headD "") = true := by
          cases hb : amem g.Modified (g.cfg.GetEnvironments.headD "")
          · exact absurd hb h2
          · rfl
        have hcond1 : ¬ (!amem g.Modified (g.cfg.GetEnvironments.headD "")) = true := by
          rw [h2t]
          decide
        have h3 : amem g.envOriginalNs (g.cfg.GetEnvironments.headD "") = true := by
          rw [← h (g.cfg.GetEnvironments.headD "")]
          exact h2t
        have hcond2 : ¬ (!amem g.envOriginalNs (g.cfg.GetEnvironments.headD "")) = true := by
          rw [h3]
          decide
        rw [if_neg hcond1, if_neg hcond2] at hcontra
        simp at hcontra

/-- Witness for C10: from the freshly constructed `gZero` (empty maps, equal
domains) the probe can only fail with the configuration or planned-data
errors, never the second check. -/
theorem plan_writes_together_c10_witness :
    gZero.probeSingleEnv ≠ .error (.notPlannedNs "dev") :=
  plan_writes_together_c10.2.2 gZero (fun _ => rfl) "dev"

/-! ## Claim C5: the environment filter in Plan -/

theorem planAct_untouched (g : Galaxy) (envName : String) (ctx : Context) (k : String)
    (hne : g.cfg.GetEnvironments ≠ []) (hk : k ∉ g.cfg.GetEnvironments) :
    alookup (planAct g envName ctx).1.Modified k = alookup g.Modified k ∧
    alookup (planAct g envName ctx).1.envOriginalNs k = alookup g.envOriginalNs k := by
  rcases planAct_shape g envName ctx with hs | ⟨hmem, w, hw, hs⟩
  · rw [hs]
    exact ⟨rfl, rfl⟩
  · rw [hs]
    have hkw : k ≠ w.1 := by
      rw [hw]
      intro hcontra
      rw [hcontra] at hk
      exact hk (hmem hne)
    constructor
    · show alookup (aset w.1 (alookupD g.Modified w.1 [] ++ [w.2.1]) g.Modified) k =
        alookup g.Modified k
      rw [alookup_aset]
      simp [hkw]
    · show alookup (aset w.1 w.2.2 g.envOriginalNs) k = alookup g.envOriginalNs k
      rw [alookup_aset]
      simp [hkw]

theorem loopEnvs_plan_untouched (fs : FileSystem) (L : List String) :
    ∀ (g : Galaxy) (k : String), g.cfg.GetEnvironments ≠ [] →
      k ∉ g.cfg.GetEnvironments →
      alookup (loopEnvs fs planAct g L).1.Modified k = alookup g.Modified k ∧
      alookup (loopEnvs fs planAct g L).1.envOriginalNs k = alookup g.envOriginalNs k := by
  induction L with
  | nil =>
    intro g k _ _
    exact ⟨rfl, rfl⟩
  | cons env rest ih =>
    intro g k hne hk
    rw [loopEnvs]
    cases hi : iterate fs planAct g env with
    | mk g2 e =>
      have hmeta : g2.cfg = g.cfg := by
        unfold iterate at hi
        split at hi
        · cases hi
          rfl
        · rw [show g2 = (planAct g env _).1 from by rw [hi]]
          exact (planAct_meta g env _).2
      have huntouched :
          alookup g2.Modified k = alookup g.Modified k ∧
          alookup g2.envOriginalNs k = alookup g.envOriginalNs k := by
        unfold iterate at hi
        split at hi
        · cases hi
          exact ⟨rfl, rfl⟩
        · rw [show g2 = (planAct g env _).1 from by rw [hi]]
          exact planAct_untouched g env _ k hne hk
      cases e with
      | some e2 => exact huntouched
      | none =>
        have := ih g2 k (by rw [hmeta]; exact hne) (by rw [hmeta]; exact hk)
        exact ⟨this.1.trans huntouched.1, this.2.trans huntouched.2⟩

theorem planWrite_mem_self (w : PlanWrite) (g : Galaxy) :
    amem (planWrite w g).Modified w.1 = true ∧
    amem (planWrite w g).envOriginalNs w.1 = true := by
  constructor
  · show amem (aset w.1 (alookupD g.Modified w.1 [] ++ [w.2.1]) g.Modified) w.1 = true
    rw [amem_aset]
    simp
  · show amem (aset w.1 w.2.2 g.envOriginalNs) w.1 = true
    rw [amem_aset]
    simp

theorem planAct_success_planned (g : Galaxy) (envName : String) (ctx : Context)
    (g2 : Galaxy) (hreq : g.cfg.GetEnvironments = [])
    (h : planAct g envName ctx = (g2, none)) :
    amem g2.Modified envName = true ∧ amem g2.envOriginalNs envName = true := by
  rw [planAct_eq] at h
  have hcond : ¬ ((g.cfg.GetEnvironments.length > 0 &&
      !(stringSliceContains g.cfg.GetEnvironments envName)) = true) := by
    rw [hreq]
    simp
  rw [if_neg hcond] at h
  split at h
  · simp at h
  · split at h
    · simp at h
    · have hg2 : planWrite (envName, _, _) g = g2 := congrArg Prod.fst h
      rw [← hg2]
      exact planWrite_mem_self (envName, _, _) g

theorem planAct_mem_mono (g : Galaxy) (envName : String) (ctx : Context) (k : String) :
    (amem g.Modified k = true → amem (planAct g envName ctx).1.Modified k = true) ∧
    (amem g.envOriginalNs k = true →
      amem (planAct g envName ctx).1.envOriginalNs k = true) := by
  rcases planAct_shape g envName ctx with hs | ⟨_, w, _, hs⟩
  · rw [hs]
    exact ⟨id, id⟩
  · rw [hs]
    constructor
    · intro hm
      show amem (aset w.1 (alookupD g.Modified w.1 [] ++ [w.2.1]) g.Modified) k = true
      rw [amem_aset]
      by_cases hk : k = w.1 <;> simp [hk, hm]
    · intro hm
      show amem (aset w.1 w.2.2 g.envOriginalNs) k = true
      rw [amem_aset]
      by_cases hk : k = w.1 <;> simp [hk, hm]

theorem loopEnvs_plan_mem_mono (fs : FileSystem) (L : List String) :
    ∀ (g : Galaxy) (k : String),
      (amem g.Modified k = true →
        amem (loopEnvs fs planAct g L).1.Modified k = true) ∧
      (amem g.envOriginalNs k = true →
        amem (loopEnvs fs planAct g L).1.envOriginalNs k = true) := by
  induction L with
  | nil =>
    intro g k
    exact ⟨id, id⟩
  | cons env rest ih =>
    intro g k
    rw [loopEnvs]
    cases hi : iterate fs planAct g env with
    | mk g2 e =>
      have hstep :
          (amem g.Modified k = true → amem g2.Modified k = true) ∧
          (amem g.envOriginalNs k = true → amem g2.envOriginalNs k = true) := by
        unfold iterate at hi
        split at hi
        · cases hi
          exact ⟨id, id⟩
        · rw [show g2 = (planAct g env _).1 from by rw [hi]]
          exact planAct_mem_mono g env _ k
      cases e with
      | some e2 => exact hstep
      | none =>
        exact ⟨fun hm => (ih g2 k).1 (hstep.1 hm), fun hm => (ih g2 k).2 (hstep.2 hm)⟩

theorem loopEnvs_plan_all (fs : FileSystem) (L : List String) :
    ∀ (g g2 : Galaxy), g.cfg.GetEnvironments = [] →
      loopEnvs fs planAct g L = (g2, none) →
      ∀ env ∈ L, amem g2.Modified env = true ∧ amem g2.envOriginalNs env = true := by
  induction L with
  | nil =>
    intro g g2 _ _ env hmem
    simp at hmem
  | cons env0 rest ih =>
    intro g g2 hreq hloop env hmem
    rw [loopEnvs] at hloop
    cases hi : iterate fs planAct g env0 with
    | mk gm e =>
      rw [hi] at hloop
      cases e with
      | some e2 => simp at hloop
      | none =>
        have hloop2 : loopEnvs fs planAct gm rest = (g2, none) := hloop
        have hmcfg : gm.cfg = g.cfg := by
          unfold iterate at hi
          split at hi
          · exact absurd (congrArg Prod.snd hi) (by simp)
          · rw [show gm = (planAct g env0 _).1 from by rw [hi]]
            exact (planAct_meta g env0 _).2
        have hplanned :
            amem gm.Modified env0 = true ∧ amem gm.envOriginalNs env0 = true := by
          unfold iterate at hi
          split at hi
          · exact absurd (congrArg Prod.snd hi) (by simp)
          · exact planAct_success_planned g env0 _ gm hreq hi
        rcases List.mem_cons.mp hmem with heq | htail
        · subst heq
          have h1m := (loopEnvs_plan_mem_mono fs rest gm env).1 hplanned.1
          have h2m := (loopEnvs_plan_mem_mono fs rest gm env).2 hplanned.2
          rw [hloop2] at h1m h2m
          exact ⟨h1m, h2m⟩
        · have hq : gm.cfg.GetEnvironments = [] := by
            rw [hmcfg]
            exact hreq
          exact ih gm g2 hq hloop2 env htail

/-- Claim C5: with a non-empty requested environment list, `Plan` leaves the
`Modified` and `envOriginalNs` entries of any environment outside the list
untouched (the environment is skipped without producing entries and without
raising an error for it); with an empty requested list, a successful `Plan`
produces entries in both maps for every environment declared in the spec. -/
theorem plan_env_filter_c5 (g : Galaxy) (fs : FileSystem) :
    (∀ envName, g.cfg.GetEnvironments ≠ [] → envName ∉ g.cfg.GetEnvironments →
       alookup (g.Plan fs).1.Modified envName = alookup g.Modified envName ∧
       alookup (g.Plan fs).1.envOriginalNs envName = alookup g.envOriginalNs envName)
  ∧ (g.cfg.GetEnvironments = [] → ∀ g2, g.Plan fs = (g2, none) →
       ∀ env ∈ g.dotGalaxy.ListEnvironments,
         amem g2.Modified env = true ∧ amem g2.envOriginalNs env = true) := by
  constructor
  · intro envName hne hnotin
    exact loopEnvs_plan_untouched fs g.dotGalaxy.ListEnvironments g envName hne hnotin
  · intro hreq g2 hplan env hmem
    exact loopEnvs_plan_all fs g.dotGalaxy.ListEnvironments g g2 hreq hplan env hmem

/-- Witness for C5: requesting only `prod` leaves `dev` unplanned (both maps
still lack it), and an empty request plans both declared environments. -/
theorem plan_env_filter_c5_witness :
    (alookup gEx1.Modified "dev" = alookup (NewGalaxy dEx cfgProd).Modified "dev" ∧
     alookup gEx1.envOriginalNs "dev" =
       alookup (NewGalaxy dEx cfgProd).envOriginalNs "dev") ∧
    (amem ((NewGalaxy dEx cfgAll).Plan fsEx).1.Modified "dev" = true ∧
     amem ((NewGalaxy dEx cfgAll).Plan fsEx).1.envOriginalNs "dev" = true) := by
  constructor
  · exact (plan_env_filter_c5 (NewGalaxy dEx cfgProd) fsEx).1 "dev"
      (by decide) (by decide)
  · exact (plan_env_filter_c5 (NewGalaxy dEx cfgAll) fsEx).2 rfl
      ((NewGalaxy dEx cfgAll).Plan fsEx).1 rfl "dev" (by decide)

/-! ## Claim C4: Inspect fail-fast and accumulation -/

theorem amem_cons {α : Type} (p : String × α) (m : List (String × α)) (k : String) :
    amem (p :: m) k = ((p.fst == k) || amem m k) := by
  by_cases h : p.fst = k <;> simp [amem, alookup_cons, h]

theorem amem_addRecords (ns k : String) (recs : List FileRecord)
    (l : List (String × List FileRecord)) :
    amem (addRecords ns recs l) k = ((k == ns) || amem l k) := by
  induction l with
  | nil =>
    by_cases h : k = ns
    · subst h
      simp [addRecords, amem_cons]
    · have h1 : (ns == k) = false := by simp [Ne.symm h]
      have h2 : (k == ns) = false := by simp [h]
      simp [addRecords, amem_cons, amem, alookup_cons, alookup_nil, h1, h2, Ne.symm h]
  | cons p rest ih =>
    by_cases hp : p.fst = ns
    · have hp' : (p.fst == ns) = true := by simp [hp]
      by_cases h : k = ns
      · subst h
        simp [addRecords, hp', amem_cons]
      · have h1 : (ns == k) = false := by simp [Ne.symm h]
        have h2 : (k == ns) = false := by simp [h]
        have h3 : (p.fst == k) = false := by
          rw [hp]
          exact h1
        simp [addRecords, hp', amem_cons, h1, h2, h3]
    · have hp' : (p.fst == ns) = false := by simp [hp]
      simp [addRecords, hp', amem_cons, ih, Bool.or_left_comm]

theorem inspectDir_ok (ctx : Context) (fs : FileSystem) (ns baseDir : String)
    (exts : List String) (hdir : isDir fs baseDir = true) :
    ctx.inspectDir fs ns baseDir exts =
      .ok ⟨addRecords ns (discoveredRecords fs exts ns baseDir) ctx.entries⟩ := by
  simp [Context.inspectDir, hdir]

theorem buildCtxGo_ok (fs : FileSystem) (d : DotGalaxy)
    (hbase : isDir fs d.spec.namespaces.baseDir = true) :
    ∀ names : List String, (∀ ns ∈ names, ns ∈ d.spec.namespaces.names) →
      (∀ ns ∈ names, isDir fs (pathJoin d.spec.namespaces.baseDir ns) = true) →
      ∀ ctx : Context, ∃ c, buildCtxGo fs d ctx names = .ok c ∧
        (∀ ns2, ctx.hasNs ns2 = true → c.hasNs ns2 = true) ∧
        (∀ ns2 ∈ names, c.hasNs ns2 = true) := by
  intro names
  induction names with
  | nil =>
    intro _ _ ctx
    exact ⟨ctx, rfl, fun _ h => h, by simp⟩
  | cons ns rest ih =>
    intro hsub hdirs ctx
    have hns : ns ∈ d.spec.namespaces.names := hsub ns (by simp)
    have hgd : d.GetNamespaceDir fs ns = .ok (pathJoin d.spec.namespaces.baseDir ns) := by
      unfold DotGalaxy.GetNamespaceDir
      have h1 : stringSliceContains d.spec.namespaces.names ns = true := by
        simpa [stringSliceContains] using hns
      rw [h1, hbase]
      rfl
    have hdir : isDir fs (pathJoin d.spec.namespaces.baseDir ns) = true :=
      hdirs ns (by simp)
    obtain ⟨c, hc, hmono, hall⟩ := ih (fun x hx => hsub x (by simp [hx]))
      (fun x hx => hdirs x (by simp [hx]))
      ⟨addRecords ns (discoveredRecords fs d.spec.namespaces.extensions ns
        (pathJoin d.spec.namespaces.baseDir ns)) ctx.entries⟩
    refine ⟨c, ?_, ?_, ?_⟩
    · simp only [buildCtxGo, hgd,
        inspectDir_ok ctx fs ns (pathJoin d.spec.namespaces.baseDir ns)
          d.spec.namespaces.extensions hdir]
      exact hc
    · intro ns2 h2
      apply hmono
      show amem (addRecords ns _ ctx.entries) ns2 = true
      rw [amem_addRecords]
      simp [Context.hasNs] at h2
      simp [h2]
    · intro ns2 h2
      rcases List.mem_cons.mp h2 with heq | htail
      · subst heq
        apply hmono
        show amem (addRecords ns2 _ ctx.entries) ns2 = true
        rw [amem_addRecords]
        simp
      · exact hall ns2 htail

theorem inspectAct_eq (g : Galaxy) (env : String) (ctx : Context) :
    inspectAct g env ctx =
      ({ g with original := aset env (alookupD g.original env [] ++ [ctx]) g.original },
        none) :=
  rfl

theorem loopEnvs_inspect (fs : FileSystem) (d : DotGalaxy) (c : Context) :
    ∀ L : List String, L.Nodup →
      ∀ g : Galaxy, g.dotGalaxy = d → buildCtx fs d = .ok c →
      ∃ g2, loopEnvs fs inspectAct g L = (g2, none) ∧ g2.dotGalaxy = d ∧
        (∀ env ∈ L, alookupD g2.original env [] = alookupD g.original env [] ++ [c]) ∧
        (∀ env, env ∉ L → alookupD g2.original env [] = alookupD g.original env []) := by
  intro L
  induction L with
  | nil =>
    intro _ g hd _
    exact ⟨g, rfl, hd, by simp, fun _ _ => rfl⟩
  | cons env rest ih =>
    intro hnd g hd hb
    obtain ⟨hnd1, hnd2⟩ := List.nodup_cons.mp hnd
    have hstep : iterate fs inspectAct g env =
        ({ g with original := aset env (alookupD g.original env [] ++ [c]) g.original },
          none) := by
      have hb2 : buildCtx fs g.dotGalaxy = Except.ok c := by
        rw [hd]
        exact hb
      unfold iterate
      rw [hb2]
      rfl
    obtain ⟨g2, hg2, hg2d, hall, hother⟩ := ih hnd2
      { g with original := aset env (alookupD g.original env [] ++ [c]) g.original }
      hd hb
    refine ⟨g2, ?_, hg2d, ?_, ?_⟩
    · rw [loopEnvs, hstep]
      exact hg2
    · intro env2 h2
      rcases List.mem_cons.mp h2 with heq | htail
      · subst heq
        rw [hother env2 hnd1]
        show alookupD (aset env2 (alookupD g.original env2 [] ++ [c]) g.original) env2 [] = _
        rw [alookupD_aset_self]
      · have hne : env2 ≠ env := by
          intro hcontra
          rw [hcontra] at htail
          exact hnd1 htail
        rw [hall env2 htail]
        show alookupD (aset env (alookupD g.original env [] ++ [c]) g.original) env2 [] ++ [c] = _
        rw [alookupD_aset_ne _ _ _ _ _ hne]
    · intro env2 h2
      have hne : env2 ≠ env := fun hcontra => h2 (by rw [hcontra]; simp)
      have htail : env2 ∉ rest := fun hcontra => h2 (by simp [hcontra])
      rw [hother env2 htail]
      show alookupD (aset env (alookupD g.original env [] ++ [c]) g.original) env2 [] = _
      rw [alookupD_aset_ne _ _ _ _ _ hne]

/-- Claim C4: when the configured namespaces base directory is missing,
`Inspect` fails fast with the not-found error naming that path and the
state is untouched (nothing accumulated); when it exists (and the
namespace directories do too), `Inspect` succeeds, and for every declared
environment it appends to `original[env]` one context holding an entry for
every declared namespace. -/
theorem inspect_c4 (g : Galaxy) (fs : FileSystem) :
    (isDir fs g.dotGalaxy.spec.namespaces.baseDir = false →
       g.Inspect fs = (g, some (.notFound g.dotGalaxy.spec.namespaces.baseDir)))
  ∧ (isDir fs g.dotGalaxy.spec.namespaces.baseDir = true →
     (∀ ns ∈ g.dotGalaxy.ListNamespaces,
        isDir fs (pathJoin g.dotGalaxy.spec.namespaces.baseDir ns) = true) →
     g.dotGalaxy.ListEnvironments.Nodup →
     ∃ (c : Context) (g2 : Galaxy),
       buildCtx fs g.dotGalaxy = .ok c ∧
       (∀ ns ∈ g.dotGalaxy.ListNamespaces, c.hasNs ns = true) ∧
       g.Inspect fs = (g2, none) ∧
       (∀ env ∈ g.dotGalaxy.ListEnvironments,
         alookupD g2.original env [] = alookupD g.original env [] ++ [c])) := by
  constructor
  · intro hdir
    unfold Galaxy.Inspect
    rw [hdir]
    rfl
  · intro hdir hns hnd
    obtain ⟨c, hc, _, hall⟩ := buildCtxGo_ok fs g.dotGalaxy hdir
      g.dotGalaxy.ListNamespaces (fun _ h => h) hns NewContext
    have hc2 : buildCtx fs g.dotGalaxy = .ok c := hc
    obtain ⟨g2, hg2, _, henv, _⟩ := loopEnvs_inspect fs g.dotGalaxy c
      g.dotGalaxy.ListEnvironments hnd g rfl hc2
    refine ⟨c, g2, hc2, hall, ?_, henv⟩
    unfold Galaxy.Inspect
    rw [hdir]
    simp only [Bool.not_true, Bool.false_eq_true, if_false]
    exact hg2

/-- Witness for C4 at the concrete spec: a missing base dir fails fast with
the untouched state, and over `fsEx` the inspection succeeds with a
context covering `app` and `web` appended per environment. -/
theorem inspect_c4_witness :
    (NewGalaxy dEx cfgAll).Inspect fsNoBase =
      (NewGalaxy dEx cfgAll, some (.notFound "base")) ∧
    (∃ (c : Context) (g2 : Galaxy),
       buildCtx fsEx (NewGalaxy dEx cfgAll).dotGalaxy = .ok c ∧
       (∀ ns ∈ (NewGalaxy dEx cfgAll).dotGalaxy.ListNamespaces, c.hasNs ns = true) ∧
       (NewGalaxy dEx cfgAll).Inspect fsEx = (g2, none) ∧
       (∀ env ∈ (NewGalaxy dEx cfgAll).dotGalaxy.ListEnvironments,
         alookupD g2.original env [] =
           alookupD (NewGalaxy dEx cfgAll).original env [] ++ [c])) := by
  constructor
  · exact (inspect_c4 (NewGalaxy dEx cfgAll) fsNoBase).1 rfl
  · exact (inspect_c4 (NewGalaxy dEx cfgAll) fsEx).2 rfl (by decide) (by decide)

/-! ## Claim C6: re-running Plan -/

theorem planWrites_cons (w : PlanWrite) (ws : List PlanWrite) (g : Galaxy) :
    planWrites (w :: ws) g = planWrites ws (planWrite w g) :=
  rfl

theorem planWrites_meta (ws : List PlanWrite) :
    ∀ g : Galaxy, (planWrites ws g).dotGalaxy = g.dotGalaxy ∧
      (planWrites ws g).cfg = g.cfg := by
  induction ws with
  | nil =>
    intro g
    exact ⟨rfl, rfl⟩
  | cons w ws ih =>
    intro g
    rw [planWrites_cons]
    exact ⟨(ih (planWrite w g)).1, (ih (planWrite w g)).2⟩

theorem plan_lockstep (fs : FileSystem) :
    ∀ (L : List String) (g1 g2 : Galaxy), g1.dotGalaxy = g2.dotGalaxy →
      g1.cfg = g2.cfg →
      ∃ ws e, loopEnvs fs planAct g1 L = (planWrites ws g1, e) ∧
              loopEnvs fs planAct g2 L = (planWrites ws g2, e) := by
  intro L
  induction L with
  | nil =>
    intro g1 g2 _ _
    exact ⟨[], none, rfl, rfl⟩
  | cons env rest ih =>
    intro g1 g2 hd hc
    cases hb : buildCtx fs g1.dotGalaxy with
    | error e2 =>
      have hb2 : buildCtx fs g2.dotGalaxy = .error e2 := by
        rw [← hd]
        exact hb
      refine ⟨[], some e2, ?_, ?_⟩
      · simp only [loopEnvs, iterate, hb]
        rfl
      · simp only [loopEnvs, iterate, hb2]
        rfl
    | ok ctx =>
      have hb2 : buildCtx fs g2.dotGalaxy = .ok ctx := by
        rw [← hd]
        exact hb
      by_cases hskip : (g1.cfg.GetEnvironments.length > 0 &&
          !(stringSliceContains g1.cfg.GetEnvironments env)) = true
      · have hp1 : planAct g1 env ctx = (g1, none) := by
          rw [planAct_eq, if_pos hskip]
        have hp2 : planAct g2 env ctx = (g2, none) := by
          rw [planAct_eq, if_pos (by rw [← hc]; exact hskip)]
        obtain ⟨ws, e, hw1, hw2⟩ := ih g1 g2 hd hc
        refine ⟨ws, e, ?_, ?_⟩
        · simp only [loopEnvs, iterate, hb, hp1]
          exact hw1
        · simp only [loopEnvs, iterate, hb2, hp2]
          exact hw2
      · have hskip2 : ¬ ((g2.cfg.GetEnvironments.length > 0 &&
            !(stringSliceContains g2.cfg.GetEnvironments env)) = true) := by
          rw [← hc]
          exact hskip
        cases hg : g1.dotGalaxy.GetEnvironment env with
        | error e2 =>
          have hgg2 : g2.dotGalaxy.GetEnvironment env = .error e2 := by
            rw [← hd]
            exact hg
          have hp1 : planAct g1 env ctx = (g1, some e2) := by
            rw [planAct_eq, if_neg hskip]
            simp only [hg]
          have hp2 : planAct g2 env ctx = (g2, some e2) := by
            rw [planAct_eq, if_neg hskip2]
            simp only [hgg2]
          refine ⟨[], some e2, ?_, ?_⟩
          · simp only [loopEnvs, iterate, hb, hp1]
            rfl
          · simp only [loopEnvs, iterate, hb2, hp2]
            rfl
        | ok envv =>
          have hgg2 : g2.dotGalaxy.GetEnvironment env = .ok envv := by
            rw [← hd]
            exact hg
          cases hcfe : contextForEnvironment envv g1.cfg.GetNamespaces ctx with
          | error e2 =>
            have hcfe2 : contextForEnvironment envv g2.cfg.GetNamespaces ctx =
                .error e2 := by
              rw [← hc]
              exact hcfe
            have hp1 : planAct g1 env ctx = (g1, some e2) := by
              rw [planAct_eq, if_neg hskip]
              simp only [hg, hcfe]
            have hp2 : planAct g2 env ctx = (g2, some e2) := by
              rw [planAct_eq, if_neg hskip2]
              simp only [hgg2, hcfe2]
            refine ⟨[], some e2, ?_, ?_⟩
            · simp only [loopEnvs, iterate, hb, hp1]
              rfl
            · simp only [loopEnvs, iterate, hb2, hp2]
              rfl
          | ok mo =>
            obtain ⟨modified, originalNs⟩ := mo
            have hcfe2 : contextForEnvironment envv g2.cfg.GetNamespaces ctx =
                .ok (modified, originalNs) := by
              rw [← hc]
              exact hcfe
            have hp1 : planAct g1 env ctx =
                (planWrite (env, modified, originalNs) g1, none) := by
              rw [planAct_eq, if_neg hskip]
              simp only [hg, hcfe]
            have hp2 : planAct g2 env ctx =
                (planWrite (env, modified, originalNs) g2, none) := by
              rw [planAct_eq, if_neg hskip2]
              simp only [hgg2, hcfe2]
            obtain ⟨ws, e, hw1, hw2⟩ := ih (planWrite (env, modified, originalNs) g1)
              (planWrite (env, modified, originalNs) g2) hd hc
            refine ⟨(env, modified, originalNs) :: ws, e, ?_, ?_⟩
            · simp only [loopEnvs, iterate, hb, hp1]
              rw [planWrites_cons]
              exact hw1
            · simp only [loopEnvs, iterate, hb2, hp2]
              rw [planWrites_cons]
              exact hw2

theorem planWrites_modified (env : String) :
    ∀ (ws : List PlanWrite) (g : Galaxy),
      alookupD (planWrites ws g).Modified env [] =
        alookupD g.Modified env [] ++ modsOf env ws := by
  intro ws
  induction ws with
  | nil =>
    intro g
    simp [planWrites, modsOf]
  | cons w ws ih =>
    intro g
    rw [planWrites_cons, ih]
    by_cases hw : w.1 = env
    · have hw' : (w.1 == env) = true := by simp [hw]
      have hstep : alookupD (planWrite w g).Modified env [] =
          alookupD g.Modified env [] ++ [w.2.1] := by
        show alookupD (aset w.1 (alookupD g.Modified w.1 [] ++ [w.2.1]) g.Modified)
          env [] = _
        rw [hw, alookupD_aset_self]
      rw [hstep]
      simp [modsOf, hw', List.append_assoc]
    · have hw' : (w.1 == env) = false := by simp [hw]
      have hstep : alookupD (planWrite w g).Modified env [] =
          alookupD g.Modified env [] := by
        show alookupD (aset w.1 (alookupD g.Modified w.1 [] ++ [w.2.1]) g.Modified)
          env [] = _
        exact alookupD_aset_ne _ _ _ _ _ (fun hcontra => hw hcontra.symm)
      rw [hstep]
      simp [modsOf, hw']

theorem planWrites_ns (env : String) :
    ∀ (ws : List PlanWrite) (g : Galaxy),
      alookup (planWrites ws g).envOriginalNs env =
        match nsOf env ws with
        | some v => some v
        | none => alookup g.envOriginalNs env := by
  intro ws
  induction ws with
  | nil =>
    intro g
    rfl
  | cons w ws ih =>
    intro g
    rw [planWrites_cons, ih]
    cases hn : nsOf env ws with
    | some v => simp [nsOf, hn]
    | none =>
      simp only [nsOf, hn]
      show alookup (aset w.1 w.2.2 g.envOriginalNs) env = _
      rw [alookup_aset]
      by_cases hw : env = w.1
      · have hw' : (w.1 == env) = true := by simp [hw.symm]
        simp [hw, hw']
      · have hw2 : ¬ w.1 = env := fun hcontra => hw hcontra.symm
        have hw' : (w.1 == env) = false := by simp [hw2]
        simp [hw, hw']

/-- Claim C6 as stated is false: re-running `Plan` on an unchanged spec and
filesystem appends a second (identical) context to `Modified["prod"]`
instead of leaving it equal to a single run's result. -/
theorem plan_rerun_cex_c6 :
    (NewGalaxy dEx cfgProd).Plan fsEx = (gEx1, none) ∧
    (alookupD gEx1.Modified "prod" []).length = 1 ∧
    (alookupD ((gEx1.Plan fsEx).1).Modified "prod" []).length = 2 := by
  exact ⟨rfl, rfl, rfl⟩

/-- Claim C6 amended: each `Plan` run rebuilds its base contexts from
scratch, so a second run on the same spec and filesystem succeeds, computes
exactly the same per-environment results, leaves `envOriginalNs` unchanged,
and appends a second copy of each environment's planned context — after two
runs `Modified[env]` is the single-run value duplicated (concatenated with
itself), not equal to the single-run value. -/
theorem plan_rerun_amended_c6 (d : DotGalaxy) (cfg : Config) (fs : FileSystem)
    (g1 : Galaxy) (h1 : (NewGalaxy d cfg).Plan fs = (g1, none)) :
    ∃ g2, g1.Plan fs = (g2, none) ∧
      (∀ env, alookup g2.envOriginalNs env = alookup g1.envOriginalNs env) ∧
      (∀ env, alookupD g2.Modified env [] =
        alookupD g1.Modified env [] ++ alookupD g1.Modified env []) := by
  obtain ⟨ws0, e0, hw0, _⟩ := plan_lockstep fs (d.ListEnvironments)
    (NewGalaxy d cfg) (NewGalaxy d cfg) rfl rfl
  have hplan0 : (NewGalaxy d cfg).Plan fs =
      (planWrites ws0 (NewGalaxy d cfg), e0) := hw0
  have hpair := hplan0.symm.trans h1
  have hfst : planWrites ws0 (NewGalaxy d cfg) = g1 := congrArg Prod.fst hpair
  have hmeta := planWrites_meta ws0 (NewGalaxy d cfg)
  have hg1d : g1.dotGalaxy = d := by
    rw [← hfst]
    exact hmeta.1
  have hg1c : g1.cfg = cfg := by
    rw [← hfst]
    exact hmeta.2
  obtain ⟨ws, e, hwa, hwb⟩ := plan_lockstep fs (d.ListEnvironments)
    (NewGalaxy d cfg) g1 (by rw [hg1d]; rfl) (by rw [hg1c]; rfl)
  have hplanA : (NewGalaxy d cfg).Plan fs = (planWrites ws (NewGalaxy d cfg), e) := hwa
  have hpair2 := hplanA.symm.trans h1
  have hfst2 : planWrites ws (NewGalaxy d cfg) = g1 := congrArg Prod.fst hpair2
  have hsnd2 : e = none := congrArg Prod.snd hpair2
  subst hsnd2
  have hplanB : g1.Plan fs = (planWrites ws g1, none) := by
    show loopEnvs fs planAct g1 (g1.dotGalaxy.ListEnvironments) = _
    rw [hg1d]
    exact hwb
  refine ⟨planWrites ws g1, hplanB, ?_, ?_⟩
  · intro env
    have hA := planWrites_ns env ws g1
    have hB := planWrites_ns env ws (NewGalaxy d cfg)
    rw [hfst2] at hB
    cases hn : nsOf env ws with
    | some v =>
      rw [hn] at hA hB
      have hA2 : alookup (planWrites ws g1).envOriginalNs env = some v := hA
      have hB2 : alookup g1.envOriginalNs env = some v := hB
      rw [hA2, hB2]
    | none =>
      rw [hn] at hA
      exact hA
  · intro env
    have hA := planWrites_modified env ws g1
    have hB := planWrites_modified env ws (NewGalaxy d cfg)
    rw [hfst2] at hB
    have hB2 : alookupD g1.Modified env [] = modsOf env ws := by
      rw [hB]
      rfl
    rw [hA, hB2]

/-- Witness for the amended C6 at the concrete spec: the second run on
`gEx1` succeeds with unchanged `envOriginalNs` and duplicated planned data. -/
theorem plan_rerun_amended_c6_witness :
    ∃ g2, gEx1.Plan fsEx = (g2, none) ∧
      (∀ env, alookup g2.envOriginalNs env = alookup gEx1.envOriginalNs env) ∧
      (∀ env, alookupD g2.Modified env [] =
        alookupD gEx1.Modified env [] ++ alookupD gEx1.Modified env []) :=
  plan_rerun_amended_c6 dEx cfgProd fsEx gEx1 rfl

/-! ## Claim C8: collision detection in ContextForEnvironment -/

theorem ctxForEnvGo_step_skip (env : Environment) (nsFilter : List String)
    (omap : List (String × String)) (acc : List (String × List FileRecord))
    (ns : String) (recs : List FileRecord) (rest : List (String × List FileRecord))
    (h : skipByFilter nsFilter ns = true) :
    ctxForEnvGo env nsFilter omap acc ((ns, recs) :: rest) =
      ctxForEnvGo env nsFilter omap acc rest := by
  rw [ctxForEnvGo]
  simp [h]

theorem ctxForEnvGo_step_skipNs (env : Environment) (nsFilter : List String)
    (omap : List (String × String)) (acc : List (String × List FileRecord))
    (ns : String) (recs : List FileRecord) (rest : List (String × List FileRecord))
    (h1 : skipByFilter nsFilter ns = false)
    (h2 : stringSliceContains env.skipOnNamespaces ns = true) :
    ctxForEnvGo env nsFilter omap acc ((ns, recs) :: rest) =
      ctxForEnvGo env nsFilter omap acc rest := by
  rw [ctxForEnvGo]
  simp [h1, h2]

theorem ctxForEnvGo_step_eligible (env : Environment) (nsFilter : List String)
    (omap : List (String × String)) (acc : List (String × List FileRecord))
    (ns : String) (recs : List FileRecord) (rest : List (String × List FileRecord))
    (h1 : skipByFilter nsFilter ns = false)
    (h2 : stringSliceContains env.skipOnNamespaces ns = false) :
    ctxForEnvGo env nsFilter omap acc ((ns, recs) :: rest) =
      match alookup omap (ns ++ env.transform.namespaceSuffix) with
      | some prev => .error (.conflict (ns ++ env.transform.namespaceSuffix) prev ns)
      | none => ctxForEnvGo env nsFilter
          (omap ++ [(ns ++ env.transform.namespaceSuffix, ns)])
          (acc ++ [(ns ++ env.transform.namespaceSuffix,
            (recs.filter (keepRecord env)).map
              (transformRecord env (ns ++ env.transform.namespaceSuffix)))]) rest := by
  rw [ctxForEnvGo]
  simp [h1, h2]

theorem plannedTargetsL_cons_skip (env : Environment) (nsFilter : List String)
    (ns : String) (recs : List FileRecord) (rest : List (String × List FileRecord))
    (h : skipByFilter nsFilter ns = true) :
    plannedTargetsL env nsFilter ((ns, recs) :: rest) =
      plannedTargetsL env nsFilter rest := by
  simp [plannedTargetsL, h]

theorem plannedTargetsL_cons_skipNs (env : Environment) (nsFilter : List String)
    (ns : String) (recs : List FileRecord) (rest : List (String × List FileRecord))
    (h1 : skipByFilter nsFilter ns = false)
    (h2 : stringSliceContains env.skipOnNamespaces ns = true) :
    plannedTargetsL env nsFilter ((ns, recs) :: rest) =
      plannedTargetsL env nsFilter rest := by
  simp [plannedTargetsL, h1, h2]

theorem plannedTargetsL_cons_eligible (env : Environment) (nsFilter : List String)
    (ns : String) (recs : List FileRecord) (rest : List (String × List FileRecord))
    (h1 : skipByFilter nsFilter ns = false)
    (h2 : stringSliceContains env.skipOnNamespaces ns = false) :
    plannedTargetsL env nsFilter ((ns, recs) :: rest) =
      (ns ++ env.transform.namespaceSuffix) :: plannedTargetsL env nsFilter rest := by
  simp [plannedTargetsL, h1, h2]

theorem ctxForEnvGo_conflict (env : Environment) (nsFilter : List String) :
    ∀ (l : List (String × List FileRecord)) (omap : List (String × String))
      (acc : List (String × List FileRecord)),
      (omap.map Prod.fst).Nodup →
      ¬ (omap.map Prod.fst ++ plannedTargetsL env nsFilter l).Nodup →
      ∃ target prev cur, ctxForEnvGo env nsFilter omap acc l =
        .error (.conflict target prev cur) := by
  intro l
  induction l with
  | nil =>
    intro omap acc hnd hcontra
    exact absurd (by simpa [plannedTargetsL] using hnd) hcontra
  | cons p rest ih =>
    intro omap acc hnd hcontra
    obtain ⟨ns, recs⟩ := p
    by_cases h1 : skipByFilter nsFilter ns = true
    · rw [plannedTargetsL_cons_skip env nsFilter ns recs rest h1] at hcontra
      rw [ctxForEnvGo_step_skip env nsFilter omap acc ns recs rest h1]
      exact ih omap acc hnd hcontra
    · have h1f : skipByFilter nsFilter ns = false := by
        simpa using h1
      by_cases h2 : stringSliceContains env.skipOnNamespaces ns = true
      · rw [plannedTargetsL_cons_skipNs env nsFilter ns recs rest h1f h2] at hcontra
        rw [ctxForEnvGo_step_skipNs env nsFilter omap acc ns recs rest h1f h2]
        exact ih omap acc hnd hcontra
      · have h2f : stringSliceContains env.skipOnNamespaces ns = false := by
          simpa using h2
        rw [plannedTargetsL_cons_eligible env nsFilter ns recs rest h1f h2f] at hcontra
        rw [ctxForEnvGo_step_eligible env nsFilter omap acc ns recs rest h1f h2f]
        cases ha : alookup omap (ns ++ env.transform.namespaceSuffix) with
        | some prev =>
          exact ⟨ns ++ env.transform.namespaceSuffix, prev, ns, rfl⟩
        | none =>
          have hnotmem := alookup_none_not_mem omap _ ha
          have hdisj : (omap.map Prod.fst).Disjoint
              [ns ++ env.transform.namespaceSuffix] := by
            intro a hain hb
            simp at hb
            subst hb
            exact hnotmem hain
          have hnd2 : (((omap ++ [(ns ++ env.transform.namespaceSuffix, ns)]).map
              Prod.fst)).Nodup := by
            rw [List.map_append]
            exact hnd.append (List.nodup_singleton _) hdisj
          have hcontra2 : ¬ (((omap ++ [(ns ++ env.transform.namespaceSuffix, ns)]).map
              Prod.fst) ++ plannedTargetsL env nsFilter rest).Nodup := by
            have he : ((omap ++ [(ns ++ env.transform.namespaceSuffix, ns)]).map
                Prod.fst) ++ plannedTargetsL env nsFilter rest =
                omap.map Prod.fst ++ ((ns ++ env.transform.namespaceSuffix) ::
                  plannedTargetsL env nsFilter rest) := by
              simp [List.map_append, List.append_assoc]
            rw [he]
            exact hcontra
          exact ih (omap ++ [(ns ++ env.transform.namespaceSuffix, ns)])
            (acc ++ [(ns ++ env.transform.namespaceSuffix,
              (recs.filter (keepRecord env)).map
                (transformRecord env (ns ++ env.transform.namespaceSuffix)))])
            hnd2 hcontra2

/-- Claim C8: when two source namespaces of the base context transform to
the same target namespace name under one environment (duplicate planned
targets), `ContextForEnvironment` fails with a `ConflictError` instead of
silently overwriting the original-namespace mapping. -/
theorem ctxForEnv_conflict_c8 (env : Environment) (nsFilter : List String)
    (base : Context) (h : ¬ (plannedTargets env nsFilter base).Nodup) :
    ∃ target prev cur, contextForEnvironment env nsFilter base =
      .error (.conflict target prev cur) := by
  exact ctxForEnvGo_conflict env nsFilter base.entries [] [] (by simp)
    (by simpa [plannedTargets] using h)

/-- Witness for C8: the context carrying source namespace `app` twice under
suffix `-x` collides on target `app-x` and planning it fails with the
conflict error. -/
theorem ctxForEnv_conflict_c8_witness :
    ∃ target prev cur, contextForEnvironment envC8 [] ctxC8 =
      .error (.conflict target prev cur) :=
  ctxForEnv_conflict_c8 envC8 [] ctxC8 (by decide)

end Galaxy2
